import Mathlib

/-!
Verification development for the Sudoku puzzle-book generator.

The definitions below are a shallow embedding of the Python sources
(`sudoku.py`, `kdp_specs.py`, `batch_processor.py`).  Python floats are
modelled as rationals (every constant involved is an exact dyadic
rational and the only operations used are `max` and `+`, so no rounding
ever occurs in the source either).  Python's mutable grids are modelled
as `List (List Nat)` with functional updates; the in-place
backtracking of the solver is modelled by passing the original
structures to the next branch.  The process-wide monotonic clock and
the seeded pseudo-random stream are modelled as explicit read-once
streams threaded through the computation.
-/

namespace SudokuBook

/-! ### kdp_specs.py -/

/-- KDP minimum outside/top/bottom margin (inches), `KDP_MIN_OUTSIDE_TOP_BOTTOM_IN`. -/
def KDP_MIN_OUTSIDE_TOP_BOTTOM_IN : ℚ := 1/4

/-- Gutter breakpoint table `KDP_INSIDE_GUTTER_TABLE` from `kdp_specs.py`. -/
def KDP_INSIDE_GUTTER_TABLE : List (Nat × Nat × ℚ) :=
  [(24, 150, 3/8), (151, 300, 1/2), (301, 500, 5/8), (501, 700, 3/4), (701, 828, 7/8)]

/-- Embedding of `compute_even_page_count` (`kdp_specs.py`). -/
def compute_even_page_count (page_count : Int) : Int :=
  if page_count ≤ 0 then 0
  else if page_count % 2 = 0 then page_count else page_count + 1

/-- Embedding of `required_inside_margin_no_bleed` (`kdp_specs.py`).  The Python
`for` loop over the breakpoint table with an early `return` is modelled by
`List.find?`, which keeps the first matching row. -/
def required_inside_margin_no_bleed (page_count_even : Int) : ℚ :=
  if page_count_even ≤ 0 then 0
  else
    match KDP_INSIDE_GUTTER_TABLE.find? (fun row =>
        decide ((row.1 : Int) ≤ page_count_even ∧ page_count_even ≤ (row.2.1 : Int))) with
    | some row => row.2.2
    | none => ((KDP_INSIDE_GUTTER_TABLE.getLastD (0, 0, 0)).2.2)

/-- Record `InteriorMarginSpec` from `kdp_specs.py`. -/
structure InteriorMarginSpec where
  outside_in : ℚ
  top_in : ℚ
  bottom_in : ℚ
  inside_in : ℚ
  deriving DecidableEq

/-- Embedding of `build_margin_spec_no_bleed` (`kdp_specs.py`). -/
def build_margin_spec_no_bleed (page_count_even : Int) (outside_top_bottom_in : ℚ)
    (extra_gutter_in : ℚ) : InteriorMarginSpec :=
  let outside := max KDP_MIN_OUTSIDE_TOP_BOTTOM_IN outside_top_bottom_in
  let required_inside := required_inside_margin_no_bleed page_count_even
  let inside := max required_inside outside + max 0 extra_gutter_in
  { outside_in := outside, top_in := outside, bottom_in := outside, inside_in := inside }

/-! ### batch_processor.py layout helpers -/

/-- Embedding of `_layout_from_per_page` (`batch_processor.py`).  The source
computes `math.floor(math.sqrt(per_page))` on IEEE doubles; for the integer
inputs handled here this is the integer square root `Nat.sqrt`.  `math.ceil`
of the quotient is modelled by Nat ceiling division. -/
def layout_from_per_page (per_page : Int) : Nat × Nat :=
  let pp : Nat := (max 1 per_page).toNat
  let rows : Nat := max 1 (Nat.sqrt pp)
  let cols : Nat := (pp + rows - 1) / rows
  (rows, cols)

/-- Embedding of `_pages_needed` (`batch_processor.py`). -/
def pages_needed (puzzle_count rows cols : Nat) : Nat :=
  let per_page := max 1 (rows * cols)
  (puzzle_count + per_page - 1) / per_page

/-! ### sudoku.py: data model, difficulty tables -/

/-- The dataclass `SudokuSpec` from `sudoku.py`. -/
structure SudokuSpec where
  size : Nat
  block_rows : Nat
  block_cols : Nat
  deriving DecidableEq

/-- Table `CLUE_RANGES` from `sudoku.py`; `none` for unsupported keys (the
Python dict raises `KeyError`, but callers guard with `in` checks first). -/
def CLUE_RANGES (size : Nat) (difficulty : String) : Option (Nat × Nat) :=
  if size = 6 then
    if difficulty = "Easy" then some (24, 28)
    else if difficulty = "Medium" then some (20, 23)
    else if difficulty = "Hard" then some (16, 19)
    else if difficulty = "Expert" then some (12, 15)
    else none
  else if size = 9 then
    if difficulty = "Easy" then some (36, 45)
    else if difficulty = "Medium" then some (30, 35)
    else if difficulty = "Hard" then some (24, 29)
    else if difficulty = "Expert" then some (17, 23)
    else none
  else if size = 16 then
    if difficulty = "Easy" then some (160, 190)
    else if difficulty = "Medium" then some (130, 159)
    else if difficulty = "Hard" then some (100, 129)
    else if difficulty = "Expert" then some (80, 99)
    else none
  else none

/-- Table `SOLVER_NODE_LIMITS` from `sudoku.py` (inner value; `none` = no limit). -/
def SOLVER_NODE_LIMITS (size : Nat) (difficulty : String) : Option Nat :=
  if size = 9 then
    if difficulty = "Medium" then some 20000
    else if difficulty = "Hard" then some 12000
    else if difficulty = "Expert" then some 7000
    else none
  else if size = 16 then
    if difficulty = "Easy" then some 18000
    else if difficulty = "Medium" then some 12000
    else if difficulty = "Hard" then some 7000
    else if difficulty = "Expert" then some 4500
    else none
  else none

/-- Table `PUZZLE_TIME_LIMITS_SEC` from `sudoku.py` (seconds, as exact rationals). -/
def PUZZLE_TIME_LIMITS_SEC (size : Nat) (difficulty : String) : Option ℚ :=
  if size = 9 then
    if difficulty = "Medium" then some (12/10)
    else if difficulty = "Hard" then some (14/10)
    else if difficulty = "Expert" then some (18/10)
    else none
  else if size = 16 then
    if difficulty = "Easy" then some (8/10)
    else if difficulty = "Medium" then some 1
    else if difficulty = "Hard" then some (12/10)
    else if difficulty = "Expert" then some (15/10)
    else none
  else none

/-- Table `MAX_GENERATION_TRIES` from `sudoku.py`: every entry is 35. -/
def MAX_GENERATION_TRIES (_size : Nat) (_difficulty : String) : Nat := 35

/-- Embedding of `spec_for_size` (`sudoku.py`); `none` models the raised
`ValueError` for unsupported sizes. -/
def spec_for_size (size : Nat) : Option SudokuSpec :=
  if size = 6 then some ⟨6, 2, 3⟩
  else if size = 9 then some ⟨9, 3, 3⟩
  else if size = 16 then some ⟨16, 4, 4⟩
  else none

/-- Embedding of `_pattern` (`sudoku.py`). -/
def pattern (r c : Nat) (spec : SudokuSpec) : Nat :=
  (spec.block_cols * (r % spec.block_rows) + r / spec.block_rows + c) % spec.size

/-! ### Random stream and clock

`random.Random` and `time.perf_counter` are external library facilities, not
code of this repository.  They are modelled as explicit read-once streams: a
function from a position to a value, together with the position of the next
unread value.  Each draw consumes one stream value, so the whole batch reads
one pseudo-random stream strictly sequentially, exactly as the single shared
`rng` object does in the source. -/

/-- A seeded pseudo-random source: an arbitrary stream of naturals plus the
index of the next draw. -/
structure Rng where
  f : Nat → Nat
  k : Nat

/-- Draw a value in `[0, n)` (for `n > 0`) and advance the stream. -/
def rngBelow (r : Rng) (n : Nat) : Nat × Rng :=
  (if n = 0 then 0 else r.f r.k % n, ⟨r.f, r.k + 1⟩)

/-- The monotonic clock `time.perf_counter`: a stream of rational readings. -/
structure Clk where
  f : Nat → ℚ
  k : Nat

/-- Read the clock once and advance it. -/
def readClock (c : Clk) : ℚ × Clk :=
  (c.f c.k, ⟨c.f, c.k + 1⟩)

/-- Model of `rng.shuffle` (Python stdlib, external to the repository): a
selection shuffle driven by the random stream — repeatedly draw an index
below the remaining length and extract that element.  For every stream the
result is a permutation of the input, which is the only property of the
stdlib shuffle the repository relies on.  The first argument is fuel equal
to the list length, making the recursion structural. -/
def shuffleGo {α : Type} : Nat → List α → Rng → List α × Rng
  | 0, _, r => ([], r)
  | _ + 1, [], r => ([], r)
  | n + 1, a :: t, r =>
      let (j, r') := rngBelow r (a :: t).length
      let x := (a :: t).getD j a
      let rest := (a :: t).eraseIdx j
      let (res, r'') := shuffleGo n rest r'
      (x :: res, r'')

/-- Model of `_shuffle` (`sudoku.py`): copy the items and shuffle them. -/
def shuffle {α : Type} (l : List α) (r : Rng) : List α × Rng :=
  shuffleGo l.length l r

/-! ### sudoku.py: full-solution generator -/

/-- One band (or stack) of the comprehension in `_generate_full_solution`: for
each `band` in order, shuffle `range blockLen` and emit `band * blockLen + i`.
The random source threads through the bands sequentially. -/
def bandConcat (blockLen : Nat) : List Nat → Rng → List Nat × Rng
  | [], r => ([], r)
  | band :: bs, r =>
      let (inner, r') := shuffle (List.range blockLen) r
      let (rest, r'') := bandConcat blockLen bs r'
      (inner.map (fun i => band * blockLen + i) ++ rest, r'')

/-- Embedding of `_generate_full_solution` (`sudoku.py`).  A grid is a list of
rows; cell `(r, c)` of the result is `digits[_pattern(rows[r], cols[c], spec)]`. -/
def generate_full_solution (spec : SudokuSpec) (rng : Rng) : List (List Nat) × Rng :=
  let size := spec.size
  let (digits, r1) := shuffle (List.range' 1 size) rng
  let (row_bands, r2) := shuffle (List.range (size / spec.block_rows)) r1
  let (rows, r3) := bandConcat spec.block_rows row_bands r2
  let (col_stacks, r4) := shuffle (List.range (size / spec.block_cols)) r3
  let (cols, r5) := bandConcat spec.block_cols col_stacks r4
  (rows.map (fun r => cols.map (fun c => digits.getD (pattern r c spec) 0)), r5)

/-! ### sudoku.py: constraint solver -/

/-- Read cell `(r, c)` of a grid (out-of-range reads yield 0; the source never
reads out of range). -/
def gget (g : List (List Nat)) (r c : Nat) : Nat :=
  (g.getD r []).getD c 0

/-- Write cell `(r, c)` of a grid functionally (models `grid[r][c] = v`). -/
def gset (g : List (List Nat)) (r c v : Nat) : List (List Nat) :=
  g.set r ((g.getD r []).set c v)

/-- Embedding of `_box_index` (`sudoku.py`). -/
def box_index (r c : Nat) (spec : SudokuSpec) : Nat :=
  (r / spec.block_rows) * (spec.size / spec.block_cols) + c / spec.block_cols

/-- Mask triple `(row_mask, col_mask, box_mask)`; the Python lists of bitsets
are modelled as functions from index to bitset, updated functionally. -/
def Masks := (Nat → Nat) × (Nat → Nat) × (Nat → Nat)

/-- Point update of one mask array entry, models `m[i] |= bit` etc. -/
def mupd (m : Nat → Nat) (i v : Nat) : Nat → Nat :=
  fun j => if j = i then v else m j

/-- Row-major list of all cell positions of a `size × size` grid, the
iteration order of the nested loops in `_init_masks` and `_select_cell`. -/
def allCells (size : Nat) : List (Nat × Nat) :=
  (List.range size).flatMap (fun r => (List.range size).map (fun c => (r, c)))

/-- Embedding of `_init_masks` (`sudoku.py`): one pass over all cells, OR-ing
the bit of each nonzero value into its row, column and box mask. -/
def init_masks (g : List (List Nat)) (spec : SudokuSpec) : Masks :=
  (allCells spec.size).foldl
    (fun (m : Masks) rc =>
      let v := gget g rc.1 rc.2
      if v = 0 then m
      else
        let bit := 1 <<< (v - 1)
        (mupd m.1 rc.1 (m.1 rc.1 ||| bit),
         mupd m.2.1 rc.2 (m.2.1 rc.2 ||| bit),
         mupd m.2.2 (box_index rc.1 rc.2 spec) (m.2.2 (box_index rc.1 rc.2 spec) ||| bit)))
    (fun _ => 0, fun _ => 0, fun _ => 0)

/-- Candidate mask of an empty cell: `full_mask & ~(row|col|box)`.  Python's
`x & ~y` on nonnegative ints equals `x ^^^ (x &&& y)`. -/
def candMask (m : Masks) (spec : SudokuSpec) (full r c : Nat) : Nat :=
  full ^^^ (full &&& (m.1 r ||| m.2.1 c ||| m.2.2 (box_index r c spec)))

/-- Number of set bits among the low `width` bits; masks here are always below
`2 ^ width`, so this is exactly Python's `mask.bit_count()`. -/
def bitCountBelow (width mask : Nat) : Nat :=
  ((List.range width).filter (fun i => mask.testBit i)).length

/-- The scan of `_select_cell` over a list of remaining positions, carrying the
current best `(r, c, mask)` and its candidate count.  Early returns of the
source are modelled by returning from the match arm directly. -/
def selectGo (g : List (List Nat)) (spec : SudokuSpec) (m : Masks) (full : Nat) :
    List (Nat × Nat) → Option (Nat × Nat × Nat) → Nat → Option (Nat × Nat × Nat)
  | [], best, _ => best
  | (r, c) :: rest, best, bestCount =>
      if gget g r c ≠ 0 then selectGo g spec m full rest best bestCount
      else
        let mask := candMask m spec full r c
        let count := bitCountBelow spec.size mask
        if count = 0 then some (r, c, 0)
        else if count < bestCount then
          if count = 1 then some (r, c, mask)
          else selectGo g spec m full rest (some (r, c, mask)) count
        else selectGo g spec m full rest best bestCount

/-- Embedding of `_select_cell` (`sudoku.py`). -/
def select_cell (g : List (List Nat)) (spec : SudokuSpec) (m : Masks) (full : Nat) :
    Option (Nat × Nat × Nat) :=
  selectGo g spec m full (allCells spec.size) none (spec.size + 1)

/-- Ascending list of candidate values encoded in a mask: Python's
`while mask: bit = mask & -mask; mask -= bit; val = bit.bit_length()` visits
the set bits from lowest to highest, producing `val = index + 1` each time. -/
def maskVals (width mask : Nat) : List Nat :=
  ((List.range width).filter (fun i => mask.testBit i)).map (fun i => i + 1)

/-- Masks after asserting digit `val` (bit `bit`) at cell `(r, c)`: models the
three `|= bit` updates before the recursive call of `_count_solutions`.  The
source undoes them with `^= bit` after the call; the functional model simply
reuses the original masks for the next branch. -/
def assertMasks (m : Masks) (spec : SudokuSpec) (r c bit : Nat) : Masks :=
  (mupd m.1 r (m.1 r ||| bit),
   mupd m.2.1 c (m.2.1 c ||| bit),
   mupd m.2.2 (box_index r c spec) (m.2.2 (box_index r c spec) ||| bit))

/-- The candidate loop of `_count_solutions`: try each value of the chosen
cell in ascending order, accumulate the counts, and stop as soon as the
running count reaches `limit`.  `recur` is the recursive solver call (at one
smaller fuel); a `none` from it is the budget-exceeded signal and propagates
(the Python exception unwinds).  The result pairs the count with the final
node counter. -/
def branchGo (spec : SudokuSpec) (limit r c : Nat)
    (recur : List (List Nat) → Masks → Nat → Option (Nat × Nat))
    (g : List (List Nat)) (m : Masks) : List Nat → Nat → Nat → Option (Nat × Nat)
  | [], count, nodes => some (count, nodes)
  | val :: rest, count, nodes =>
      let bit := 1 <<< (val - 1)
      match recur (gset g r c val) (assertMasks m spec r c bit) nodes with
      | none => none
      | some (sub, nodes') =>
          if limit ≤ count + sub then some (count + sub, nodes')
          else branchGo spec limit r c recur g m rest (count + sub) nodes'

/-- Embedding of `_count_solutions` (`sudoku.py`).  `fuel` bounds the
recursion depth (the source recursion terminates because every call fills an
empty cell; `count_solutions` below supplies fuel exceeding the cell count).
The `Option` result is `none` when the node budget is exceeded (the
`SearchBudgetExceeded` exception) and `some (count, nodes)` otherwise. -/
def countAux (spec : SudokuSpec) (full limit : Nat) (nodeLimit : Option Nat) :
    Nat → List (List Nat) → Masks → Nat → Option (Nat × Nat)
  | 0, _, _, _ => none
  | fuel + 1, g, m, nodes =>
      let step : Nat → Option (Nat × Nat) := fun nodes' =>
        match select_cell g spec m full with
        | none => some (1, nodes')
        | some (r, c, mask) =>
            if mask = 0 then some (0, nodes')
            else
              branchGo spec limit r c (countAux spec full limit nodeLimit fuel)
                g m (maskVals spec.size mask) 0 nodes'
      match nodeLimit with
      | some lim => if nodes + 1 > lim then none else step (nodes + 1)
      | none => step nodes

/-- Embedding of `count_solutions` (`sudoku.py`): build the masks, run the
recursive counter, and turn the budget exception into `none`. -/
def count_solutions (g : List (List Nat)) (spec : SudokuSpec) (limit : Nat)
    (nodeLimit : Option Nat) : Option Nat :=
  let full := (1 <<< spec.size) - 1
  (countAux spec full limit nodeLimit (spec.size * spec.size + 1) g (init_masks g spec) 0).map
    Prod.fst

/-! ### sudoku.py: clue reducer -/

/-- Embedding of `_count_clues` (`sudoku.py`). -/
def count_clues (g : List (List Nat)) : Nat :=
  (g.map (fun row => (row.filter (fun v => v ≠ 0)).length)).sum

/-- Result of one reduction sweep: the grid, the achieved clue count, the
number of budget hits, and the timed-out flag. -/
structure ReduceResult where
  grid : List (List Nat)
  clues : Nat
  budget_hits : Nat
  timed_out : Bool
  deriving DecidableEq

/-- The position loop of `_remove_numbers`: for each position, check the
deadline (consuming one clock reading, exactly when a deadline is set), stop
if at or below the target, tentatively zero the cell, and keep the removal
only if the uniqueness check returns exactly one solution; otherwise restore
the value, counting a budget hit when the solver signalled budget-exceeded. -/
def removeGo (spec : SudokuSpec) (target : Nat) (nodeLimit : Option Nat)
    (deadline : Option ℚ) :
    List (Nat × Nat) → List (List Nat) → Nat → Nat → Clk → ReduceResult × Clk
  | [], g, clues, hits, clk => (⟨g, clues, hits, false⟩, clk)
  | (r, c) :: rest, g, clues, hits, clk =>
      let (clk', timedOut) :=
        match deadline with
        | some d => let (now, c') := readClock clk; (c', decide (d ≤ now))
        | none => (clk, false)
      if timedOut then (⟨g, clues, hits, true⟩, clk')
      else if clues ≤ target then (⟨g, clues, hits, false⟩, clk')
      else if clues - 1 < target then removeGo spec target nodeLimit deadline rest g clues hits clk'
      else
        let backup := gget g r c
        let g0 := gset g r c 0
        let sol := count_solutions g0 spec 2 nodeLimit
        if sol = some 1 then
          removeGo spec target nodeLimit deadline rest g0 (clues - 1) hits clk'
        else
          let g1 := gset g0 r c backup
          removeGo spec target nodeLimit deadline rest g1 clues
            (if sol = none then hits + 1 else hits) clk'

/-- Embedding of `_remove_numbers` (`sudoku.py`): shuffle all positions, then
run the reduction sweep starting from the full clue count. -/
def remove_numbers (puzzle : List (List Nat)) (spec : SudokuSpec) (target : Nat)
    (rng : Rng) (nodeLimit : Option Nat) (deadline : Option ℚ) (clk : Clk) :
    ReduceResult × Rng × Clk :=
  let (positions, rng') := shuffle (allCells spec.size) rng
  let clues := count_clues puzzle
  let (res, clk') := removeGo spec target nodeLimit deadline positions puzzle clues 0 clk
  (res, rng', clk')

/-! ### sudoku.py: generate_puzzle / generate_puzzles -/

/-- Data of one generation attempt (one iteration of `generate_puzzle`'s loop). -/
structure Attempt where
  puzzle : List (List Nat)
  solution : List (List Nat)
  clues : Nat
  budget_hits : Nat
  timed_out : Bool
  deriving DecidableEq, Inhabited

/-- The quintuple `generate_puzzle` returns:
`(puzzle, solution, clues, exact, meta)`. -/
structure Outcome where
  puzzle : List (List Nat)
  solution : List (List Nat)
  clues : Nat
  exact : Bool
  budget_hits : Nat
  timed_out : Bool
  deriving DecidableEq

/-- Absolute difference `abs(clues - target)` of two Python ints. -/
def absDiff (a b : Nat) : Nat :=
  ((a : Int) - (b : Int)).natAbs

/-- Attach the `exact` flag to an attempt. -/
def mkOutcome (a : Attempt) (exact : Bool) : Outcome :=
  ⟨a.puzzle, a.solution, a.clues, exact, a.budget_hits, a.timed_out⟩

/-- One iteration of the `generate_puzzle` loop: draw a full solution, copy it
into the puzzle, compute the deadline (reading the clock once exactly when a
time limit is given), and reduce. -/
def attempt_once (spec : SudokuSpec) (target : Nat) (nodeLimit : Option Nat)
    (timeLimit : Option ℚ) (rng : Rng) (clk : Clk) : Attempt × Rng × Clk :=
  let (solution, rng1) := generate_full_solution spec rng
  let (deadline, clk1) :=
    match timeLimit with
    | some t => let (now, c') := readClock clk; (some (now + t), c')
    | none => ((none : Option ℚ), clk)
  let (res, rng2, clk2) := remove_numbers solution spec target rng1 nodeLimit deadline clk1
  (⟨res.grid, solution, res.clues, res.budget_hits, res.timed_out⟩, rng2, clk2)

/-- The retry loop of `generate_puzzle`, carrying the best attempt so far with
its clue-count deviation.  An exact attempt returns immediately; otherwise the
strictly closest attempt is kept and the last value of `best` is returned
(`none` only when `max_tries = 0`, where Python also returns `None`). -/
def genLoop (spec : SudokuSpec) (target : Nat) (nodeLimit : Option Nat)
    (timeLimit : Option ℚ) :
    Nat → Rng → Clk → Option (Outcome × Nat) → Option Outcome × Rng × Clk
  | 0, rng, clk, best => (best.map Prod.fst, rng, clk)
  | n + 1, rng, clk, best =>
      let (a, rng', clk') := attempt_once spec target nodeLimit timeLimit rng clk
      let diff := absDiff a.clues target
      if diff = 0 then (some (mkOutcome a true), rng', clk')
      else
        let best' :=
          match best with
          | none => some (mkOutcome a false, diff)
          | some (b, bd) => if diff < bd then some (mkOutcome a false, diff) else some (b, bd)
        genLoop spec target nodeLimit timeLimit n rng' clk' best'

/-- Embedding of `generate_puzzle` (`sudoku.py`). -/
def generate_puzzle (spec : SudokuSpec) (target : Nat) (rng : Rng) (maxTries : Nat)
    (nodeLimit : Option Nat) (timeLimit : Option ℚ) (clk : Clk) :
    Option Outcome × Rng × Clk :=
  genLoop spec target nodeLimit timeLimit maxTries rng clk none

/-- Ghost sequence of the attempts `generate_puzzle` would produce from a given
random/clock state: attempt `i` is computed from the state left by attempts
`0 .. i-1`, exactly as the loop threads its state.  Used to state which of the
attempts the loop returns. -/
def attemptsList (spec : SudokuSpec) (target : Nat) (nodeLimit : Option Nat)
    (timeLimit : Option ℚ) : Nat → Rng → Clk → List Attempt
  | 0, _, _ => []
  | n + 1, rng, clk =>
      let (a, rng', clk') := attempt_once spec target nodeLimit timeLimit rng clk
      a :: attemptsList spec target nodeLimit timeLimit n rng' clk'

/-- Embedding of `rng.randint(low, high)` (stdlib): a draw in `[low, high]`,
consuming one stream value. -/
def randint (low high : Nat) (r : Rng) : Nat × Rng :=
  let (j, r') := rngBelow r (high + 1 - low)
  (low + j, r')

/-- The batch loop of `generate_puzzles`, collecting puzzle/solution pairs.
The progress and warning callbacks of the source are side-effect-only and
carry no data into the result, so they are not modelled.  `none` models the
`TypeError` Python would raise if `generate_puzzle` ever returned `None`
(unreachable, since every `MAX_GENERATION_TRIES` entry is 35). -/
def genBatchGo (spec : SudokuSpec) (low high : Nat) (nodeLimit : Option Nat)
    (timeLimit : Option ℚ) (maxTries : Nat) :
    Nat → Rng → Clk → Option (List (List (List Nat)) × List (List (List Nat)))
  | 0, _, _ => some ([], [])
  | n + 1, rng, clk =>
      let (target, rng1) := randint low high rng
      match generate_puzzle spec target rng1 maxTries nodeLimit timeLimit clk with
      | (none, _, _) => none
      | (some out, rng2, clk2) =>
          (genBatchGo spec low high nodeLimit timeLimit maxTries n rng2 clk2).map
            (fun ps => (out.puzzle :: ps.1, out.solution :: ps.2))

/-- Embedding of `generate_puzzles` (`sudoku.py`).  `none` models the
`ValueError` raised for an unsupported size or difficulty (both guards reduce
to `CLUE_RANGES` returning no entry). -/
def generate_puzzles (count : Nat) (spec : SudokuSpec) (difficulty : String)
    (rng : Rng) (clk : Clk) :
    Option (List (List (List Nat)) × List (List (List Nat))) :=
  match CLUE_RANGES spec.size difficulty with
  | none => none
  | some (low, high) =>
      genBatchGo spec low high (SOLVER_NODE_LIMITS spec.size difficulty)
        (PUZZLE_TIME_LIMITS_SEC spec.size difficulty)
        (MAX_GENERATION_TRIES spec.size difficulty) count rng clk

/-! ### Basic facts about the embedding -/

/-- Well-formed `size × size` grid. -/
def Dims (g : List (List Nat)) (size : Nat) : Prop :=
  g.length = size ∧ ∀ row ∈ g, row.length = size

instance (g : List (List Nat)) (size : Nat) : Decidable (Dims g size) := by
  unfold Dims
  infer_instance

theorem getD_cons_eraseIdx {α : Type} (l : List α) (j : Nat) (d : α) (h : j < l.length) :
    (l.getD j d :: l.eraseIdx j).Perm l := by
  induction l generalizing j with
  | nil => simp at h
  | cons a t ih =>
      cases j with
      | zero => simp
      | succ j =>
          simp only [List.getD_cons_succ, List.eraseIdx_cons_succ]
          have h' : j < t.length := by simpa using h
          exact (List.Perm.swap a (t.getD j d) (t.eraseIdx j)).trans ((ih j h').cons a)

theorem shuffleGo_perm {α : Type} (n : Nat) (l : List α) (r : Rng) (h : l.length ≤ n) :
    ((shuffleGo n l r).1).Perm l := by
  induction n generalizing l r with
  | zero =>
      have : l = [] := List.eq_nil_of_length_eq_zero (Nat.le_zero.mp h)
      subst this
      simp [shuffleGo]
  | succ n ih =>
      cases l with
      | nil => simp [shuffleGo]
      | cons a t =>
          simp only [shuffleGo, rngBelow]
          have hlen : (a :: t).length ≠ 0 := by simp
          have hj : r.f r.k % (a :: t).length < (a :: t).length :=
            Nat.mod_lt _ (Nat.pos_of_ne_zero hlen)
          set j := r.f r.k % (a :: t).length with hjdef
          have hrest : ((a :: t).eraseIdx j).length ≤ n := by
            rw [List.length_eraseIdx]
            simp only [hj, if_pos]
            simpa using h
          have hres := ih ((a :: t).eraseIdx j) ⟨r.f, r.k + 1⟩ hrest
          simp only [if_neg hlen]
          exact ((hres.cons _).trans (getD_cons_eraseIdx (a :: t) j a hj))

theorem shuffle_perm {α : Type} (l : List α) (r : Rng) : ((shuffle l r).1).Perm l :=
  shuffleGo_perm l.length l r (Nat.le_refl _)

theorem allCells_eq_product (size : Nat) :
    allCells size = (List.range size) ×ˢ (List.range size) := rfl

theorem mem_allCells {size r c : Nat} : (r, c) ∈ allCells size ↔ r < size ∧ c < size := by
  simp [allCells]

theorem length_allCells (size : Nat) : (allCells size).length = size * size := by
  rw [allCells_eq_product, List.length_product, List.length_range]

theorem nodup_allCells (size : Nat) : (allCells size).Nodup := by
  rw [allCells_eq_product]
  exact (List.nodup_range size).product (List.nodup_range size)

theorem gset_dims {g : List (List Nat)} {size : Nat} (h : Dims g size)
    {r : Nat} (hr : r < size) (c v : Nat) : Dims (gset g r c v) size := by
  obtain ⟨hl, hrow⟩ := h
  refine ⟨by simpa [gset] using hl, ?_⟩
  intro row hmem
  rcases List.mem_or_eq_of_mem_set hmem with h' | h'
  · exact hrow row h'
  · subst h'
    have hr' : r < g.length := hl ▸ hr
    rw [List.getD_eq_getElem _ _ hr', List.length_set]
    exact hrow _ (List.getElem_mem hr')

theorem getD_set_self {α : Type} {l : List α} {i : Nat} (h : i < l.length) (x : α) (d : α) :
    (l.set i x).getD i d = x := by
  rw [List.getD_eq_getElem _ _ (by simpa using h)]
  exact List.getElem_set_self _

theorem getD_set_ne {α : Type} (l : List α) {i j : Nat} (h : j ≠ i) (x : α) (d : α) :
    (l.set i x).getD j d = l.getD j d := by
  rcases Nat.lt_or_ge j l.length with hj | hj
  · rw [List.getD_eq_getElem _ _ (by simpa using hj),
      List.getElem_set_ne (fun hh => h hh.symm), List.getD_eq_getElem _ _ hj]
  · rw [List.getD_eq_default _ _ (by simpa using hj), List.getD_eq_default _ _ hj]

theorem gget_gset {g : List (List Nat)} {size : Nat} (h : Dims g size)
    {r c : Nat} (hr : r < size) (hc : c < size) (v r' c' : Nat) :
    gget (gset g r c v) r' c' = if r' = r ∧ c' = c then v else gget g r' c' := by
  obtain ⟨hl, hrow⟩ := h
  have hrg : r < g.length := hl ▸ hr
  have hrowlen : (g.getD r []).length = size := by
    rw [List.getD_eq_getElem _ _ hrg]
    exact hrow _ (List.getElem_mem hrg)
  by_cases h1 : r' = r
  · subst h1
    rw [gget, gset, getD_set_self hrg]
    by_cases h2 : c' = c
    · subst h2
      rw [if_pos ⟨rfl, rfl⟩, getD_set_self (hrowlen ▸ hc)]
    · rw [if_neg (fun hh => h2 hh.2), getD_set_ne _ h2, gget]
  · rw [if_neg (fun hh => h1 hh.1), gget, gset, getD_set_ne _ h1, gget]

theorem set_set_getD_cancel (l : List Nat) (c : Nat) :
    (l.set c 0).set c (l.getD c 0) = l := by
  induction l generalizing c with
  | nil => simp
  | cons a t ih =>
      cases c with
      | zero => simp
      | succ c => simpa using ih c

theorem gset_gset_cancel (g : List (List Nat)) (r c : Nat) :
    gset (gset g r c 0) r c (gget g r c) = g := by
  simp only [gset, gget, List.set_set]
  rcases Nat.lt_or_ge r g.length with hr | hr
  · rw [getD_set_self hr ((g.getD r []).set c 0) [], set_set_getD_cancel,
      List.getD_eq_getElem _ _ hr]
    apply List.ext_getElem
    · simp [List.length_set]
    · intro i h1 h2
      by_cases hir : i = r
      · subst hir
        simp [List.getElem_set_self h1]
      · exact List.getElem_set_ne (fun hh => hir hh.symm) h1
  · rw [List.set_eq_of_length_le hr]

/-! ### Facts about the cell-selection scan -/

theorem selectGo_some {g : List (List Nat)} {spec : SudokuSpec} {m : Masks} {full : Nat} :
    ∀ (l : List (Nat × Nat)) (best : Option (Nat × Nat × Nat)) (bc r c mask : Nat),
      selectGo g spec m full l best bc = some (r, c, mask) →
      ((r, c) ∈ l ∧ gget g r c = 0) ∨ best = some (r, c, mask) := by
  intro l
  induction l with
  | nil =>
      intro best bc r c mask h
      exact Or.inr h
  | cons p rest ih =>
      intro best bc r c mask h
      obtain ⟨a, b⟩ := p
      simp only [selectGo] at h
      by_cases hz : gget g a b ≠ 0
      · rw [if_pos hz] at h
        rcases ih best bc r c mask h with ⟨hm, hg⟩ | hb
        · exact Or.inl ⟨List.mem_cons_of_mem _ hm, hg⟩
        · exact Or.inr hb
      · rw [if_neg hz] at h
        push_neg at hz
        by_cases h0 : bitCountBelow spec.size (candMask m spec full a b) = 0
        · rw [if_pos h0] at h
          simp only [Option.some.injEq, Prod.mk.injEq] at h
          exact Or.inl ⟨by simp [h.1.symm, h.2.1.symm], h.1 ▸ h.2.1 ▸ hz⟩
        · rw [if_neg h0] at h
          by_cases hlt : bitCountBelow spec.size (candMask m spec full a b) < bc
          · rw [if_pos hlt] at h
            by_cases h1 : bitCountBelow spec.size (candMask m spec full a b) = 1
            · rw [if_pos h1] at h
              simp only [Option.some.injEq, Prod.mk.injEq] at h
              exact Or.inl ⟨by simp [h.1.symm, h.2.1.symm], h.1 ▸ h.2.1 ▸ hz⟩
            · rw [if_neg h1] at h
              rcases ih _ _ r c mask h with ⟨hm, hg⟩ | hb
              · exact Or.inl ⟨List.mem_cons_of_mem _ hm, hg⟩
              · simp only [Option.some.injEq, Prod.mk.injEq] at hb
                exact Or.inl ⟨by simp [hb.1.symm, hb.2.1.symm], hb.1 ▸ hb.2.1 ▸ hz⟩
          · rw [if_neg hlt] at h
            rcases ih best bc r c mask h with ⟨hm, hg⟩ | hb
            · exact Or.inl ⟨List.mem_cons_of_mem _ hm, hg⟩
            · exact Or.inr hb

theorem select_cell_some {g : List (List Nat)} {spec : SudokuSpec} {m : Masks} {full : Nat}
    {r c mask : Nat} (h : select_cell g spec m full = some (r, c, mask)) :
    r < spec.size ∧ c < spec.size ∧ gget g r c = 0 := by
  rcases selectGo_some (allCells spec.size) none (spec.size + 1) r c mask h with ⟨hm, hg⟩ | hb
  · exact ⟨(mem_allCells.mp hm).1, (mem_allCells.mp hm).2, hg⟩
  · exact absurd hb (by simp)

theorem selectGo_of_no_zero {g : List (List Nat)} {spec : SudokuSpec} {m : Masks} {full : Nat} :
    ∀ (l : List (Nat × Nat)) (best : Option (Nat × Nat × Nat)) (bc : Nat),
      (∀ p ∈ l, gget g p.1 p.2 ≠ 0) → selectGo g spec m full l best bc = best := by
  intro l
  induction l with
  | nil => intro best bc _; rfl
  | cons p rest ih =>
      intro best bc hall
      obtain ⟨a, b⟩ := p
      simp only [selectGo]
      rw [if_pos (hall (a, b) (List.mem_cons_self _ _))]
      exact ih best bc (fun q hq => hall q (List.mem_cons_of_mem _ hq))

theorem select_cell_of_full {g : List (List Nat)} {spec : SudokuSpec} {m : Masks} {full : Nat}
    (h : ∀ p ∈ allCells spec.size, gget g p.1 p.2 ≠ 0) :
    select_cell g spec m full = none :=
  selectGo_of_no_zero (allCells spec.size) none (spec.size + 1) h

theorem maskVals_pos {width mask v : Nat} (h : v ∈ maskVals width mask) : v ≠ 0 := by
  simp only [maskVals, List.mem_map] at h
  obtain ⟨i, _, rfl⟩ := h
  exact Nat.succ_ne_zero i

/-! ### Counting empty cells; the fuel argument -/

/-- Number of empty cells of the grid (within the `size × size` area). -/
def zerosIn (g : List (List Nat)) (size : Nat) : Nat :=
  (allCells size).countP (fun rc => gget g rc.1 rc.2 == 0)

theorem zerosIn_le (g : List (List Nat)) (size : Nat) : zerosIn g size ≤ size * size :=
  le_trans (List.countP_le_length _) (le_of_eq (length_allCells size))

theorem zerosIn_gset_lt {g : List (List Nat)} {size r c v : Nat} (hd : Dims g size)
    (hr : r < size) (hc : c < size) (h0 : gget g r c = 0) (hv : v ≠ 0) :
    zerosIn (gset g r c v) size < zerosIn g size := by
  obtain ⟨l₁, l₂, hsplit⟩ := List.append_of_mem (mem_allCells.mpr ⟨hr, hc⟩)
  have hnd := nodup_allCells size
  rw [hsplit] at hnd
  rw [List.nodup_append] at hnd
  obtain ⟨hnd₁, hnd₂, hdisj⟩ := hnd
  have hnot₁ : (r, c) ∉ l₁ := fun hx => hdisj hx (List.mem_cons_self _ _)
  have hnot₂ : (r, c) ∉ l₂ := (List.nodup_cons.mp hnd₂).1
  have hcongr : ∀ l' : List (Nat × Nat), (r, c) ∉ l' →
      l'.countP (fun rc => gget (gset g r c v) rc.1 rc.2 == 0) =
      l'.countP (fun rc => gget g rc.1 rc.2 == 0) := by
    intro l' hno
    apply List.countP_congr
    intro x hx
    have hne : ¬(x.1 = r ∧ x.2 = c) := by
      rintro ⟨h1, h2⟩
      exact hno (by rwa [show x = (r, c) from Prod.ext h1 h2] at hx)
    rw [gget_gset hd hr hc v x.1 x.2, if_neg hne]
  unfold zerosIn
  rw [hsplit, List.countP_append, List.countP_append, List.countP_cons, List.countP_cons,
    hcongr l₁ hnot₁, hcongr l₂ hnot₂]
  have hpg : (gget g r c == 0) = true := by simp [h0]
  have hpg' : (gget (gset g r c v) r c == 0) = false := by
    rw [gget_gset hd hr hc v r c, if_pos ⟨rfl, rfl⟩]
    simp [hv]
  simp [hpg, hpg']

/-! ### The node budget does not change a successfully computed count -/

theorem branchGo_mono {spec : SudokuSpec} {limit r c : Nat}
    {recurL recurN : List (List Nat) → Masks → Nat → Option (Nat × Nat)}
    (H : ∀ g' m' n k n', recurL g' m' n = some (k, n') →
      ∀ n₂, recurN g' m' n₂ = some (k, n₂)) :
    ∀ (vals : List Nat) (g : List (List Nat)) (m : Masks) (count nodes k n' : Nat),
      branchGo spec limit r c recurL g m vals count nodes = some (k, n') →
      ∀ n₂, branchGo spec limit r c recurN g m vals count n₂ = some (k, n₂) := by
  intro vals
  induction vals with
  | nil =>
      intro g m count nodes k n' h n₂
      simp only [branchGo, Option.some.injEq, Prod.mk.injEq] at h ⊢
      exact ⟨h.1, trivial⟩
  | cons val rest ih =>
      intro g m count nodes k n' h n₂
      simp only [branchGo] at h ⊢
      cases hrec : recurL (gset g r c val) (assertMasks m spec r c (1 <<< (val - 1))) nodes with
      | none => rw [hrec] at h; exact absurd h (by simp)
      | some p =>
          obtain ⟨sub, n₁⟩ := p
          rw [hrec] at h
          rw [H _ _ _ _ _ hrec n₂]
          simp only at h ⊢
          by_cases hlim : limit ≤ count + sub
          · rw [if_pos hlim] at h
            rw [if_pos hlim]
            simp only [Option.some.injEq, Prod.mk.injEq] at h ⊢
            exact ⟨h.1, trivial⟩
          · rw [if_neg hlim] at h
            rw [if_neg hlim]
            exact ih g m (count + sub) n₁ k n' h n₂

theorem countAux_mono {spec : SudokuSpec} {full limit : Nat} :
    ∀ (fuel : Nat) (g : List (List Nat)) (m : Masks) (nodes : Nat) (nl : Option Nat)
      (k n' : Nat),
      countAux spec full limit nl fuel g m nodes = some (k, n') →
      ∀ n₂, countAux spec full limit none fuel g m n₂ = some (k, n₂) := by
  intro fuel
  induction fuel with
  | zero =>
      intro g m nodes nl k n' h
      exact absurd h (by simp [countAux])
  | succ fuel ih =>
      intro g m nodes nl k n' h n₂
      have hstep : ∀ nodesX,
          (match select_cell g spec m full with
            | none => some (1, nodesX)
            | some (r, c, mask) =>
                if mask = 0 then some (0, nodesX)
                else branchGo spec limit r c (countAux spec full limit nl fuel)
                  g m (maskVals spec.size mask) 0 nodesX) = some (k, n') →
          (match select_cell g spec m full with
            | none => some (1, n₂)
            | some (r, c, mask) =>
                if mask = 0 then some (0, n₂)
                else branchGo spec limit r c (countAux spec full limit none fuel)
                  g m (maskVals spec.size mask) 0 n₂) = some (k, n₂) := by
        intro nodesX hX
        cases hsel : select_cell g spec m full with
        | none =>
            rw [hsel] at hX
            dsimp only at hX ⊢
            simp only [Option.some.injEq, Prod.mk.injEq] at hX
            simp [hX.1]
        | some t =>
            obtain ⟨r, c, mask⟩ := t
            rw [hsel] at hX
            dsimp only at hX ⊢
            by_cases hm : mask = 0
            · rw [if_pos hm] at hX
              rw [if_pos hm]
              simp only [Option.some.injEq, Prod.mk.injEq] at hX ⊢
              exact ⟨hX.1, trivial⟩
            · rw [if_neg hm] at hX
              rw [if_neg hm]
              exact branchGo_mono (fun g' m' n k' n'' hh => ih g' m' n nl k' n'' hh)
                (maskVals spec.size mask) g m 0 nodesX k n' hX n₂
      simp only [countAux] at h ⊢
      cases nl with
      | none =>
          dsimp only at h
          exact hstep nodes h
      | some lim =>
          dsimp only at h
          by_cases hb : nodes + 1 > lim
          · rw [if_pos hb] at h
            exact absurd h (by simp)
          · rw [if_neg hb] at h
            exact hstep (nodes + 1) h

theorem count_solutions_mono {g : List (List Nat)} {spec : SudokuSpec} {limit : Nat}
    {nl : Option Nat} {k : Nat} (h : count_solutions g spec limit nl = some k) :
    count_solutions g spec limit none = some k := by
  simp only [count_solutions] at h ⊢
  cases hres : countAux spec ((1 <<< spec.size) - 1) limit nl (spec.size * spec.size + 1) g
      (init_masks g spec) 0 with
  | none => rw [hres] at h; exact absurd h (by simp)
  | some p =>
      rw [hres] at h
      rw [countAux_mono _ g _ 0 nl p.1 p.2 (by rw [hres]) 0]
      exact h

/-- A grid with no empty cell: the solver immediately reports one completion. -/
theorem count_solutions_of_full {g : List (List Nat)} {spec : SudokuSpec} {limit : Nat}
    (h : ∀ p ∈ allCells spec.size, gget g p.1 p.2 ≠ 0) :
    count_solutions g spec limit none = some 1 := by
  simp only [count_solutions]
  have hx : countAux spec ((1 <<< spec.size) - 1) limit none (spec.size * spec.size + 1) g
      (init_masks g spec) 0 = some (1, 0) := by
    simp only [countAux, select_cell_of_full h]
  rw [hx]
  rfl

/-! ### Invariants of the reduction sweep -/

theorem removeGo_props (spec : SudokuSpec) (target : Nat) (nl : Option Nat)
    (deadline : Option ℚ) :
    ∀ (l : List (Nat × Nat)) (g : List (List Nat)) (clues hits : Nat) (clk : Clk),
      ((removeGo spec target nl deadline l g clues hits clk).1.clues ≤ clues) ∧
      (target ≤ clues → target ≤ (removeGo spec target nl deadline l g clues hits clk).1.clues) ∧
      (count_solutions g spec 2 none = some 1 →
        count_solutions ((removeGo spec target nl deadline l g clues hits clk).1.grid)
          spec 2 none = some 1) := by
  intro l
  induction l with
  | nil =>
      intro g clues hits clk
      exact ⟨le_refl _, fun h => h, fun h => h⟩
  | cons p rest ih =>
      intro g clues hits clk
      obtain ⟨r, c⟩ := p
      simp only [removeGo]
      cases deadline with
      | some d =>
          simp only [readClock, decide_eq_true_eq]
          by_cases ht : d ≤ clk.f clk.k
          · rw [if_pos ht]
            exact ⟨le_refl _, fun h => h, fun h => h⟩
          · rw [if_neg ht]
            by_cases h1 : clues ≤ target
            · rw [if_pos h1]
              exact ⟨le_refl _, fun h => h, fun h => h⟩
            · rw [if_neg h1]
              by_cases h2 : clues - 1 < target
              · rw [if_pos h2]
                exact ih g clues hits _
              · rw [if_neg h2]
                by_cases hsol : count_solutions (gset g r c 0) spec 2 nl = some 1
                · rw [if_pos hsol]
                  refine ⟨le_trans (ih _ _ hits _).1 (by omega), fun h => ?_, fun h => ?_⟩
                  · exact (ih _ _ hits _).2.1 (by omega)
                  · exact (ih _ _ hits _).2.2 (count_solutions_mono hsol)
                · rw [if_neg hsol, gset_gset_cancel]
                  exact ih g clues _ _
      | none =>
          simp only [Bool.false_eq_true, if_false]
          by_cases h1 : clues ≤ target
          · rw [if_pos h1]
            exact ⟨le_refl _, fun h => h, fun h => h⟩
          · rw [if_neg h1]
            by_cases h2 : clues - 1 < target
            · rw [if_pos h2]
              exact ih g clues hits _
            · rw [if_neg h2]
              by_cases hsol : count_solutions (gset g r c 0) spec 2 nl = some 1
              · rw [if_pos hsol]
                refine ⟨le_trans (ih _ _ hits _).1 (by omega), fun h => ?_, fun h => ?_⟩
                · exact (ih _ _ hits _).2.1 (by omega)
                · exact (ih _ _ hits _).2.2 (count_solutions_mono hsol)
              · rw [if_neg hsol, gset_gset_cancel]
                exact ih g clues _ _

/-- Unfolding of `remove_numbers` to its reduction sweep. -/
theorem remove_numbers_eq (puzzle : List (List Nat)) (spec : SudokuSpec) (target : Nat)
    (rng : Rng) (nl : Option Nat) (deadline : Option ℚ) (clk : Clk) :
    (remove_numbers puzzle spec target rng nl deadline clk).1 =
      (removeGo spec target nl deadline ((shuffle (allCells spec.size) rng).1) puzzle
        (count_clues puzzle) 0 clk).1 := rfl

/-- One reduction step on which the uniqueness check exhausts its budget:
the tentative removal is undone exactly (the double update collapses to the
original grid), the budget-hit counter increases by one, and the sweep
continues normally on the remaining positions. -/
theorem removeGo_budget_step (spec : SudokuSpec) (target : Nat) (nl : Option Nat)
    (deadline : Option ℚ) (r c : Nat) (rest : List (Nat × Nat)) (g : List (List Nat))
    (clues hits : Nat) (clk : Clk)
    (hnt : ∀ d, deadline = some d → ¬ d ≤ (readClock clk).1)
    (hgt : target < clues)
    (hbud : count_solutions (gset g r c 0) spec 2 nl = none) :
    gset (gset g r c 0) r c (gget g r c) = g ∧
    removeGo spec target nl deadline ((r, c) :: rest) g clues hits clk =
      removeGo spec target nl deadline rest g clues (hits + 1)
        (match deadline with | some _ => (readClock clk).2 | none => clk) := by
  refine ⟨gset_gset_cancel g r c, ?_⟩
  have hsol : ¬ count_solutions (gset g r c 0) spec 2 nl = some 1 := by
    rw [hbud]; simp
  simp only [removeGo]
  cases deadline with
  | some d =>
      simp only [readClock, decide_eq_true_eq]
      have hnt' : ¬ d ≤ clk.f clk.k := hnt d rfl
      rw [if_neg hnt', if_neg (by omega : ¬ clues ≤ target),
        if_neg (by omega : ¬ clues - 1 < target), if_neg hsol, gset_gset_cancel,
        if_pos hbud]
  | none =>
      simp only [Bool.false_eq_true, if_false]
      rw [if_neg (by omega : ¬ clues ≤ target),
        if_neg (by omega : ¬ clues - 1 < target), if_neg hsol, gset_gset_cancel,
        if_pos hbud]

/-- The retry loop returns an outcome whenever it may run at least once or
already holds a best attempt. -/
theorem genLoop_some (spec : SudokuSpec) (target : Nat) (nl : Option Nat) (tl : Option ℚ) :
    ∀ (n : Nat) (rng : Rng) (clk : Clk) (best : Option (Outcome × Nat)),
      (1 ≤ n ∨ best ≠ none) → (genLoop spec target nl tl n rng clk best).1 ≠ none := by
  intro n
  induction n with
  | zero =>
      intro rng clk best h
      rcases h with h | h
      · omega
      · cases best with
        | none => exact absurd rfl h
        | some b => simp [genLoop]
  | succ n ih =>
      intro rng clk best _
      simp only [genLoop]
      by_cases hd : absDiff (attempt_once spec target nl tl rng clk).1.clues target = 0
      · rw [if_pos hd]
        simp
      · rw [if_neg hd]
        cases best with
        | none => exact ih _ _ _ (Or.inr (by simp))
        | some b =>
            refine ih _ _ _ (Or.inr ?_)
            obtain ⟨bo, bd⟩ := b
            dsimp only
            split <;> simp

/-- The batch loop never fails when every puzzle gets at least one try. -/
theorem genBatchGo_some (spec : SudokuSpec) (low high : Nat) (nl : Option Nat)
    (tl : Option ℚ) (mt : Nat) (hmt : 1 ≤ mt) :
    ∀ (n : Nat) (rng : Rng) (clk : Clk), genBatchGo spec low high nl tl mt n rng clk ≠ none := by
  intro n
  induction n with
  | zero => intro rng clk; simp [genBatchGo]
  | succ n ih =>
      intro rng clk
      simp only [genBatchGo]
      cases hgen : generate_puzzle spec (randint low high rng).1 (randint low high rng).2
          mt nl tl clk with
      | mk o rest2 =>
          obtain ⟨rng2, clk2⟩ := rest2
          cases o with
          | none =>
              intro _
              have hne := genLoop_some spec (randint low high rng).1 nl tl mt
                (randint low high rng).2 clk none (Or.inl hmt)
              rw [show genLoop spec (randint low high rng).1 nl tl mt
                  (randint low high rng).2 clk none =
                  generate_puzzle spec (randint low high rng).1 (randint low high rng).2
                    mt nl tl clk from rfl, hgen] at hne
              exact hne rfl
          | some out =>
              intro hcontra
              dsimp only at hcontra
              cases hbn : genBatchGo spec low high nl tl mt n rng2 clk2 with
              | none => exact ih rng2 clk2 hbn
              | some q => rw [hbn] at hcontra; simp at hcontra

/-! ### Claim C1: reducer output is uniquely solvable -/

/-- C1: for every puzzle grid returned by the clue reducer (which always
starts from a fully populated grid), if the reduction reports an exact hit of
the target or completed with no budget hits and no timeout, the puzzle has
exactly one completion: `count_solutions` with `limit = 2` returns 1.  (The
proof in fact never uses the condition: every accepted removal is guarded by a
successful `count_solutions = 1` check, so the invariant holds for every
reducer output.) -/
theorem reducer_output_unique (spec : SudokuSpec) (g : List (List Nat)) (target : Nat)
    (rng : Rng) (nl : Option Nat) (deadline : Option ℚ) (clk : Clk)
    (hfull : ∀ p ∈ allCells spec.size, gget g p.1 p.2 ≠ 0)
    (_hcond : (remove_numbers g spec target rng nl deadline clk).1.clues = target ∨
      ((remove_numbers g spec target rng nl deadline clk).1.budget_hits = 0 ∧
        (remove_numbers g spec target rng nl deadline clk).1.timed_out = false)) :
    count_solutions ((remove_numbers g spec target rng nl deadline clk).1.grid) spec 2 none
      = some 1 := by
  rw [remove_numbers_eq]
  exact (removeGo_props spec target nl deadline _ g (count_clues g) 0 clk).2.2
    (count_solutions_of_full hfull)

/-- C1 witness: the 2 × 2 spec with block shape 1 × 2; reducing the full grid
`[[1,2],[2,1]]` to 2 clues hits the target exactly, and the resulting puzzle
has exactly one completion. -/
theorem reducer_output_unique_witness :
    (remove_numbers [[1,2],[2,1]] ⟨2,1,2⟩ 2 ⟨fun _ => 0, 0⟩ none none ⟨fun _ => 0, 0⟩).1.clues
        = 2 ∧
    count_solutions
      ((remove_numbers [[1,2],[2,1]] ⟨2,1,2⟩ 2 ⟨fun _ => 0, 0⟩ none none
        ⟨fun _ => 0, 0⟩).1.grid) ⟨2,1,2⟩ 2 none = some 1 :=
  ⟨by decide,
    reducer_output_unique ⟨2,1,2⟩ [[1,2],[2,1]] 2 ⟨fun _ => 0, 0⟩ none none ⟨fun _ => 0, 0⟩
      (by decide) (Or.inl (by decide))⟩

/-! ### Claim C10: the achieved clue count never drops below the target -/

/-- C10: when the target is at most the initial clue count, the reducer never
removes a clue that would take the count below the target, so the achieved
clue count it returns is at least the target. -/
theorem reducer_clues_ge_target (puzzle : List (List Nat)) (spec : SudokuSpec)
    (target : Nat) (rng : Rng) (nl : Option Nat) (deadline : Option ℚ) (clk : Clk)
    (h : target ≤ count_clues puzzle) :
    target ≤ (remove_numbers puzzle spec target rng nl deadline clk).1.clues := by
  rw [remove_numbers_eq]
  exact (removeGo_props spec target nl deadline _ puzzle (count_clues puzzle) 0 clk).2.1 h

/-- C10 witness: reducing `[[1,2],[2,1]]` towards target 3 stops at 3 clues. -/
theorem reducer_clues_ge_target_witness :
    (3 : Nat) ≤ count_clues [[1,2],[2,1]] ∧
    3 ≤ (remove_numbers [[1,2],[2,1]] ⟨2,1,2⟩ 3 ⟨fun _ => 0, 0⟩ none none
      ⟨fun _ => 0, 0⟩).1.clues :=
  ⟨by decide,
    reducer_clues_ge_target [[1,2],[2,1]] ⟨2,1,2⟩ 3 ⟨fun _ => 0, 0⟩ none none
      ⟨fun _ => 0, 0⟩ (by decide)⟩

/-! ### Claim C3: budget exhaustion is handled locally, never propagated -/

/-- C3: when the uniqueness check of a tentative removal reports
budget-exceeded (`none`), the step restores the removed value so that the
grid is exactly its prior state (the double update collapses to the original
grid), increments the budget-hit counter by one, and the sweep simply
continues; moreover the batch generator never fails for any supported
size/difficulty — the budget signal never escapes to its caller. -/
theorem budget_exceeded_is_local (spec : SudokuSpec) (target : Nat) (nl : Option Nat)
    (deadline : Option ℚ) (r c : Nat) (rest : List (Nat × Nat)) (g : List (List Nat))
    (clues hits : Nat) (clk : Clk)
    (hnt : ∀ d, deadline = some d → ¬ d ≤ (readClock clk).1)
    (hgt : target < clues)
    (hbud : count_solutions (gset g r c 0) spec 2 nl = none) :
    removeGo spec target nl deadline ((r, c) :: rest) g clues hits clk =
      removeGo spec target nl deadline rest g clues (hits + 1)
        (match deadline with | some _ => (readClock clk).2 | none => clk) ∧
    gset (gset g r c 0) r c (gget g r c) = g ∧
    (∀ (count : Nat) (spec' : SudokuSpec) (difficulty : String) (rng : Rng) (clk' : Clk)
        (low high : Nat), CLUE_RANGES spec'.size difficulty = some (low, high) →
      generate_puzzles count spec' difficulty rng clk' ≠ none) := by
  obtain ⟨hcancel, hstep⟩ :=
    removeGo_budget_step spec target nl deadline r c rest g clues hits clk hnt hgt hbud
  refine ⟨hstep, hcancel, ?_⟩
  intro count spec' difficulty rng clk' low high hcr
  unfold generate_puzzles
  rw [hcr]
  exact genBatchGo_some spec' low high (SOLVER_NODE_LIMITS spec'.size difficulty)
    (PUZZLE_TIME_LIMITS_SEC spec'.size difficulty) (MAX_GENERATION_TRIES spec'.size difficulty)
    (by norm_num [MAX_GENERATION_TRIES]) count rng clk'

/-- C3 witness: with node limit 0 every uniqueness check is budget-exceeded;
one step on the full 2 × 2 grid restores the grid and counts one hit. -/
theorem budget_exceeded_is_local_witness :
    count_solutions (gset [[1,2],[2,1]] 0 0 0) ⟨2,1,2⟩ 2 (some 0) = none ∧
    removeGo ⟨2,1,2⟩ 3 (some 0) none [(0,0)] [[1,2],[2,1]] 4 0 ⟨fun _ => 0, 0⟩ =
      removeGo ⟨2,1,2⟩ 3 (some 0) none [] [[1,2],[2,1]] 4 1 ⟨fun _ => 0, 0⟩ :=
  ⟨by decide,
    (budget_exceeded_is_local ⟨2,1,2⟩ 3 (some 0) none 0 0 [] [[1,2],[2,1]] 4 0
      ⟨fun _ => 0, 0⟩ (fun d h => nomatch h) (by decide) (by decide)).1⟩

/-! ### Claim C2: the returned count and the budget signal -/

/-- The candidate loop keeps its running count below `limit` between
iterations, so a successful result exceeds a recursive-call bound by at most
`limit - 1`. -/
theorem branchGo_le {spec : SudokuSpec} {limit r c : Nat}
    {recur : List (List Nat) → Masks → Nat → Option (Nat × Nat)} {B : Nat}
    (Hrec : ∀ g' m' n k n', recur g' m' n = some (k, n') → k ≤ B) :
    ∀ (vals : List Nat) (g : List (List Nat)) (m : Masks) (count nodes k n' : Nat),
      count < limit →
      branchGo spec limit r c recur g m vals count nodes = some (k, n') →
      k ≤ (limit - 1) + B := by
  intro vals
  induction vals with
  | nil =>
      intro g m count nodes k n' hcount h
      simp only [branchGo, Option.some.injEq, Prod.mk.injEq] at h
      omega
  | cons val rest ih =>
      intro g m count nodes k n' hcount h
      simp only [branchGo] at h
      cases hrec : recur (gset g r c val) (assertMasks m spec r c (1 <<< (val - 1))) nodes with
      | none => rw [hrec] at h; exact absurd h (by simp)
      | some p =>
          obtain ⟨sub, n₁⟩ := p
          rw [hrec] at h
          have hsub := Hrec _ _ _ _ _ hrec
          simp only at h
          by_cases hlim : limit ≤ count + sub
          · rw [if_pos hlim] at h
            simp only [Option.some.injEq, Prod.mk.injEq] at h
            omega
          · rw [if_neg hlim] at h
            exact ih g m (count + sub) n₁ k n' (by omega) h

/-- A successful count is at most `(limit - 1) * fuel + 1`. -/
theorem countAux_le {spec : SudokuSpec} {full limit : Nat} (hlim : 1 ≤ limit) :
    ∀ (fuel : Nat) (nl : Option Nat) (g : List (List Nat)) (m : Masks) (nodes k n' : Nat),
      countAux spec full limit nl fuel g m nodes = some (k, n') →
      k ≤ (limit - 1) * fuel + 1 := by
  intro fuel
  induction fuel with
  | zero =>
      intro nl g m nodes k n' h
      exact absurd h (by simp [countAux])
  | succ fuel ih =>
      intro nl g m nodes k n' h
      have hstep : ∀ nodesX,
          (match select_cell g spec m full with
            | none => some (1, nodesX)
            | some (r, c, mask) =>
                if mask = 0 then some (0, nodesX)
                else branchGo spec limit r c (countAux spec full limit nl fuel)
                  g m (maskVals spec.size mask) 0 nodesX) = some (k, n') →
          k ≤ (limit - 1) * (fuel + 1) + 1 := by
        intro nodesX hX
        cases hsel : select_cell g spec m full with
        | none =>
            rw [hsel] at hX
            dsimp only at hX
            simp only [Option.some.injEq, Prod.mk.injEq] at hX
            omega
        | some t =>
            obtain ⟨r, c, mask⟩ := t
            rw [hsel] at hX
            dsimp only at hX
            by_cases hm : mask = 0
            · rw [if_pos hm] at hX
              simp only [Option.some.injEq, Prod.mk.injEq] at hX
              omega
            · rw [if_neg hm] at hX
              have := branchGo_le (fun g' m' n k' n'' hh => ih nl g' m' n k' n'' hh)
                (maskVals spec.size mask) g m 0 nodesX k n' (by omega) hX
              have hms : (limit - 1) * (fuel + 1) = (limit - 1) * fuel + (limit - 1) :=
                Nat.mul_succ _ _
              omega
      simp only [countAux] at h
      cases nl with
      | none => exact hstep nodes h
      | some lim =>
          dsimp only at h
          by_cases hb : nodes + 1 > lim
          · rw [if_pos hb] at h
            exact absurd h (by simp)
          · rw [if_neg hb] at h
            exact hstep (nodes + 1) h

/-- The candidate loop cannot fail on its own; a `none` comes only from the
recursive calls. -/
theorem branchGo_ne_none {spec : SudokuSpec} {limit r c : Nat}
    {recur : List (List Nat) → Masks → Nat → Option (Nat × Nat)}
    {g : List (List Nat)} {m : Masks} :
    ∀ (vals : List Nat),
      (∀ val n, val ∈ vals →
        recur (gset g r c val) (assertMasks m spec r c (1 <<< (val - 1))) n ≠ none) →
      ∀ (count nodes : Nat), branchGo spec limit r c recur g m vals count nodes ≠ none := by
  intro vals
  induction vals with
  | nil => intro _ count nodes; simp [branchGo]
  | cons val rest ih =>
      intro Hrec count nodes
      simp only [branchGo]
      cases hrec : recur (gset g r c val) (assertMasks m spec r c (1 <<< (val - 1))) nodes with
      | none => exact absurd hrec (Hrec val nodes (List.mem_cons_self _ _))
      | some p =>
          obtain ⟨sub, n₁⟩ := p
          dsimp only
          by_cases hlim : limit ≤ count + sub
          · rw [if_pos hlim]
            simp
          · rw [if_neg hlim]
            exact ih (fun v n hv => Hrec v n (List.mem_cons_of_mem _ hv)) (count + sub) n₁

/-- With no node limit and enough fuel the solver always completes: in the
embedding, `none` is exclusively the budget-exceeded signal. -/
theorem countAux_ne_none {spec : SudokuSpec} {full limit : Nat} :
    ∀ (fuel : Nat) (g : List (List Nat)) (m : Masks) (nodes : Nat),
      Dims g spec.size → zerosIn g spec.size < fuel →
      countAux spec full limit none fuel g m nodes ≠ none := by
  intro fuel
  induction fuel with
  | zero => intro g m nodes _ hz; omega
  | succ fuel ih =>
      intro g m nodes hd hz
      simp only [countAux]
      cases hsel : select_cell g spec m full with
      | none => simp
      | some t =>
          obtain ⟨r, c, mask⟩ := t
          dsimp only
          by_cases hm : mask = 0
          · rw [if_pos hm]
            simp
          · rw [if_neg hm]
            obtain ⟨hr, hc, h0⟩ := select_cell_some hsel
            apply branchGo_ne_none
            intro val n hv
            have hvpos := maskVals_pos hv
            have hzlt := zerosIn_gset_lt hd hr hc h0 hvpos
            exact ih (gset g r c val) _ n (gset_dims hd hr c val) (by omega)

/-- C2 counterexample: on the 4 × 4 spec with 2 × 2 blocks, this consistent
partial grid makes `count_solutions` with `limit = 2` return 3: the final
branch of the root cell contributes two completions at once, so the returned
count exceeds the limit. -/
theorem count_solutions_exceeds_limit :
    count_solutions [[3,0,0,1],[0,0,0,3],[4,3,1,0],[0,0,3,0]] ⟨4,2,2⟩ 2 none = some 3 ∧
    ¬ (3 : Nat) ≤ 2 := ⟨by decide, by decide⟩

/-- C2 (amended): `count_solutions` returns the number of completions found by
a search that stops as soon as the running count reaches `limit`; the returned
count may exceed `limit` (by at most the final branch, and never beyond
`(limit-1)·(size²+1)+1`); with a node limit, budget exhaustion returns the
distinct signal `none`, and without a node limit the solver always returns a
count — a count and the budget signal are never conflated. -/
theorem count_solutions_amended (g : List (List Nat)) (spec : SudokuSpec) (limit : Nat)
    (nl : Option Nat) (hlim : 1 ≤ limit) :
    (∀ k, count_solutions g spec limit nl = some k →
      k ≤ (limit - 1) * (spec.size * spec.size + 1) + 1) ∧
    (Dims g spec.size → count_solutions g spec limit none ≠ none) := by
  constructor
  · intro k h
    simp only [count_solutions] at h
    cases hres : countAux spec ((1 <<< spec.size) - 1) limit nl (spec.size * spec.size + 1) g
        (init_masks g spec) 0 with
    | none => rw [hres] at h; exact absurd h (by simp)
    | some p =>
        rw [hres] at h
        have hk : p.1 = k := by simpa using h
        exact hk ▸ countAux_le hlim _ nl g _ 0 p.1 p.2 (by rw [hres])
  · intro hd
    simp only [count_solutions]
    intro hcontra
    have hz : zerosIn g spec.size < spec.size * spec.size + 1 :=
      Nat.lt_succ_of_le (zerosIn_le g spec.size)
    apply countAux_ne_none (spec.size * spec.size + 1) g (init_masks g spec) 0 hd hz
    cases hres : countAux spec ((1 <<< spec.size) - 1) limit none (spec.size * spec.size + 1) g
        (init_masks g spec) 0 with
    | none => rfl
    | some p => rw [hres] at hcontra; exact absurd hcontra (by simp)

/-- C2 witness: the amended bound and the no-budget totality at the
counterexample grid. -/
theorem count_solutions_amended_witness :
    (1 : Nat) ≤ 2 ∧
    count_solutions [[3,0,0,1],[0,0,0,3],[4,3,1,0],[0,0,3,0]] ⟨4,2,2⟩ 2 none ≠ none :=
  ⟨by decide,
    (count_solutions_amended [[3,0,0,1],[0,0,0,3],[4,3,1,0],[0,0,3,0]] ⟨4,2,2⟩ 2 none
      (by decide)).2 (by decide)⟩

/-! ### Claim C4: seed-reproducibility of batch generation -/

/-- With no deadline the sweep never reads the clock: its result does not
depend on the clock and the clock comes back unchanged. -/
theorem removeGo_none_clk (spec : SudokuSpec) (target : Nat) (nl : Option Nat) :
    ∀ (l : List (Nat × Nat)) (g : List (List Nat)) (clues hits : Nat) (clk₁ clk₂ : Clk),
      (removeGo spec target nl none l g clues hits clk₁).1 =
        (removeGo spec target nl none l g clues hits clk₂).1 ∧
      (removeGo spec target nl none l g clues hits clk₁).2 = clk₁ := by
  intro l
  induction l with
  | nil => intro g clues hits clk₁ clk₂; exact ⟨rfl, rfl⟩
  | cons p rest ih =>
      intro g clues hits clk₁ clk₂
      obtain ⟨r, c⟩ := p
      simp only [removeGo, Bool.false_eq_true, if_false]
      by_cases h1 : clues ≤ target
      · rw [if_pos h1, if_pos h1]
        exact ⟨rfl, rfl⟩
      · rw [if_neg h1, if_neg h1]
        by_cases h2 : clues - 1 < target
        · rw [if_pos h2, if_pos h2]
          exact ih g clues hits clk₁ clk₂
        · rw [if_neg h2, if_neg h2]
          by_cases hsol : count_solutions (gset g r c 0) spec 2 nl = some 1
          · rw [if_pos hsol, if_pos hsol]
            exact ih _ _ hits clk₁ clk₂
          · rw [if_neg hsol, if_neg hsol]
            exact ih _ clues _ clk₁ clk₂

/-- With no deadline `remove_numbers` ignores and preserves the clock. -/
theorem remove_numbers_none_clk (puzzle : List (List Nat)) (spec : SudokuSpec)
    (target : Nat) (rng : Rng) (nl : Option Nat) (clk₁ clk₂ : Clk) :
    (remove_numbers puzzle spec target rng nl none clk₁).1 =
      (remove_numbers puzzle spec target rng nl none clk₂).1 ∧
    (remove_numbers puzzle spec target rng nl none clk₁).2.1 =
      (remove_numbers puzzle spec target rng nl none clk₂).2.1 ∧
    (remove_numbers puzzle spec target rng nl none clk₁).2.2 = clk₁ := by
  obtain ⟨h1, h2⟩ := removeGo_none_clk spec target nl
    ((shuffle (allCells spec.size) rng).1) puzzle (count_clues puzzle) 0 clk₁ clk₂
  exact ⟨h1, rfl, h2⟩

/-- With no time limit one attempt ignores and preserves the clock. -/
theorem attempt_once_none_clk (spec : SudokuSpec) (target : Nat) (nl : Option Nat)
    (rng : Rng) (clk₁ clk₂ : Clk) :
    (attempt_once spec target nl none rng clk₁).1 =
      (attempt_once spec target nl none rng clk₂).1 ∧
    (attempt_once spec target nl none rng clk₁).2.1 =
      (attempt_once spec target nl none rng clk₂).2.1 ∧
    (attempt_once spec target nl none rng clk₁).2.2 = clk₁ := by
  simp only [attempt_once]
  cases hgen : generate_full_solution spec rng with
  | mk sol rng1 =>
      dsimp only
      obtain ⟨h1, h2, h3⟩ := remove_numbers_none_clk sol spec target rng1 nl clk₁ clk₂
      refine ⟨?_, ?_, ?_⟩
      · rw [h1]
      · rw [h2]
      · rw [h3]

/-- With no time limit the retry loop ignores the clock. -/
theorem genLoop_none_clk (spec : SudokuSpec) (target : Nat) (nl : Option Nat) :
    ∀ (n : Nat) (rng : Rng) (best : Option (Outcome × Nat)) (clk₁ clk₂ : Clk),
      (genLoop spec target nl none n rng clk₁ best).1 =
        (genLoop spec target nl none n rng clk₂ best).1 ∧
      (genLoop spec target nl none n rng clk₁ best).2.1 =
        (genLoop spec target nl none n rng clk₂ best).2.1 := by
  intro n
  induction n with
  | zero => intro rng best clk₁ clk₂; exact ⟨rfl, rfl⟩
  | succ n ih =>
      intro rng best clk₁ clk₂
      obtain ⟨ha, hr, _⟩ := attempt_once_none_clk spec target nl rng clk₁ clk₂
      simp only [genLoop, ha, hr]
      by_cases hd : absDiff (attempt_once spec target nl none rng clk₂).1.clues target = 0
      · rw [if_pos hd, if_pos hd]
        exact ⟨rfl, rfl⟩
      · rw [if_neg hd, if_neg hd]
        exact ih _ _ _ _

/-- With no time limit the batch loop ignores the clock. -/
theorem genBatchGo_none_clk (spec : SudokuSpec) (low high : Nat) (nl : Option Nat)
    (mt : Nat) :
    ∀ (n : Nat) (rng : Rng) (clk₁ clk₂ : Clk),
      genBatchGo spec low high nl none mt n rng clk₁ =
        genBatchGo spec low high nl none mt n rng clk₂ := by
  intro n
  induction n with
  | zero => intro rng clk₁ clk₂; rfl
  | succ n ih =>
      intro rng clk₁ clk₂
      simp only [genBatchGo]
      obtain ⟨h1, h2⟩ := genLoop_none_clk spec (randint low high rng).1 nl mt
        (randint low high rng).2 none clk₁ clk₂
      cases hg1 : generate_puzzle spec (randint low high rng).1 (randint low high rng).2
          mt nl none clk₁ with
      | mk o1 q1 =>
          cases hg2 : generate_puzzle spec (randint low high rng).1 (randint low high rng).2
              mt nl none clk₂ with
          | mk o2 q2 =>
              have ho : o1 = o2 := by
                have := h1
                rw [show (genLoop spec (randint low high rng).1 nl none mt
                    (randint low high rng).2 clk₁ none).1 =
                    (generate_puzzle spec (randint low high rng).1 (randint low high rng).2
                      mt nl none clk₁).1 from rfl, hg1] at this
                rw [show (genLoop spec (randint low high rng).1 nl none mt
                    (randint low high rng).2 clk₂ none).1 =
                    (generate_puzzle spec (randint low high rng).1 (randint low high rng).2
                      mt nl none clk₂).1 from rfl, hg2] at this
                exact this
              have hq : q1.1 = q2.1 := by
                have := h2
                rw [show (genLoop spec (randint low high rng).1 nl none mt
                    (randint low high rng).2 clk₁ none).2.1 =
                    (generate_puzzle spec (randint low high rng).1 (randint low high rng).2
                      mt nl none clk₁).2.1 from rfl, hg1] at this
                rw [show (genLoop spec (randint low high rng).1 nl none mt
                    (randint low high rng).2 clk₂ none).2.1 =
                    (generate_puzzle spec (randint low high rng).1 (randint low high rng).2
                      mt nl none clk₂).2.1 from rfl, hg2] at this
                exact this
              subst ho
              cases o1 with
              | none => rfl
              | some out =>
                  dsimp only
                  rw [hq, ih q2.1 q1.2 q2.2]

/-- C4: batch generation is a pure function of its arguments, the random
stream, and the (modelled, read-once) monotonic clock: two runs with
identically seeded random sources, identical clock streams and identical
arguments return identical puzzle and solution sequences.  Moreover, for any
difficulty with no time limit the clock is never read at all, so the random
seed alone reproduces the batch byte for byte. -/
theorem generate_puzzles_reproducible (count : Nat) (spec : SudokuSpec)
    (difficulty : String) (rng₁ rng₂ : Rng) (clk₁ clk₂ : Clk)
    (hr : rng₁ = rng₂) (hc : clk₁ = clk₂) :
    generate_puzzles count spec difficulty rng₁ clk₁ =
      generate_puzzles count spec difficulty rng₂ clk₂ ∧
    (PUZZLE_TIME_LIMITS_SEC spec.size difficulty = none →
      ∀ clkA clkB : Clk,
        generate_puzzles count spec difficulty rng₁ clkA =
          generate_puzzles count spec difficulty rng₁ clkB) := by
  subst hr hc
  refine ⟨rfl, fun htl clkA clkB => ?_⟩
  unfold generate_puzzles
  cases hcr : CLUE_RANGES spec.size difficulty with
  | none => rfl
  | some lh =>
      dsimp only
      rw [htl]
      exact genBatchGo_none_clk spec lh.1 lh.2 (SOLVER_NODE_LIMITS spec.size difficulty)
        (MAX_GENERATION_TRIES spec.size difficulty) count rng₁ clkA clkB

/-- C4 witness: the theorem applied at a concrete batch call with equal
streams. -/
theorem generate_puzzles_reproducible_witness :
    generate_puzzles 2 ⟨6,2,3⟩ "Easy" ⟨fun n => n + 1, 0⟩ ⟨fun _ => 0, 0⟩ =
      generate_puzzles 2 ⟨6,2,3⟩ "Easy" ⟨fun n => n + 1, 0⟩ ⟨fun _ => 0, 0⟩ :=
  (generate_puzzles_reproducible 2 ⟨6,2,3⟩ "Easy" ⟨fun n => n + 1, 0⟩ ⟨fun n => n + 1, 0⟩
    ⟨fun _ => 0, 0⟩ ⟨fun _ => 0, 0⟩ rfl rfl).1

/-! ### Claim C6: the retry loop of generate_puzzle -/

theorem shuffle_length {α : Type} (l : List α) (r : Rng) :
    ((shuffle l r).1).length = l.length :=
  (shuffle_perm l r).length_eq

theorem bandConcat_length (blockLen : Nat) :
    ∀ (bands : List Nat) (r : Rng),
      ((bandConcat blockLen bands r).1).length = bands.length * blockLen := by
  intro bands
  induction bands with
  | nil => intro r; simp [bandConcat]
  | cons band bs ih =>
      intro r
      simp only [bandConcat]
      cases h1 : shuffle (List.range blockLen) r with
      | mk inner r1 =>
          cases h2 : bandConcat blockLen bs r1 with
          | mk rest r2 =>
              have hinner : inner.length = blockLen := by
                have := shuffle_length (List.range blockLen) r
                rw [h1] at this
                simpa using this
              have hrest : rest.length = bs.length * blockLen := by
                have := ih r1
                rw [h2] at this
                exact this
              simp [List.length_append, hinner, hrest, Nat.succ_mul, Nat.add_comm]

theorem count_clues_le_sum (g : List (List Nat)) :
    count_clues g ≤ (g.map List.length).sum := by
  unfold count_clues
  induction g with
  | nil => simp
  | cons row rest ih =>
      simp only [List.map_cons, List.sum_cons]
      exact Nat.add_le_add (List.length_filter_le _ _) ih

/-- The generated full solution occupies at most `size × size` cells, so its
clue count is at most `size²`. -/
theorem count_clues_generate_le (spec : SudokuSpec) (rng : Rng) :
    count_clues (generate_full_solution spec rng).1 ≤ spec.size * spec.size := by
  simp only [generate_full_solution]
  cases h1 : shuffle (List.range' 1 spec.size) rng with
  | mk digits r1 =>
      cases h2 : shuffle (List.range (spec.size / spec.block_rows)) r1 with
      | mk row_bands r2 =>
          cases h3 : bandConcat spec.block_rows row_bands r2 with
          | mk rows r3 =>
              cases h4 : shuffle (List.range (spec.size / spec.block_cols)) r3 with
              | mk col_stacks r4 =>
                  cases h5 : bandConcat spec.block_cols col_stacks r4 with
                  | mk cols r5 =>
                      dsimp only
                      refine le_trans (count_clues_le_sum _) ?_
                      have hrows : rows.length ≤ spec.size := by
                        have hb := bandConcat_length spec.block_rows row_bands r2
                        rw [h3] at hb
                        have hlb : row_bands.length = spec.size / spec.block_rows := by
                          have := shuffle_length (List.range (spec.size / spec.block_rows)) r1
                          rw [h2] at this
                          simpa using this
                        calc rows.length = row_bands.length * spec.block_rows := hb
                          _ = spec.size / spec.block_rows * spec.block_rows := by rw [hlb]
                          _ ≤ spec.size := Nat.div_mul_le_self _ _
                      have hcols : cols.length ≤ spec.size := by
                        have hb := bandConcat_length spec.block_cols col_stacks r4
                        rw [h5] at hb
                        have hlb : col_stacks.length = spec.size / spec.block_cols := by
                          have := shuffle_length (List.range (spec.size / spec.block_cols)) r3
                          rw [h4] at this
                          simpa using this
                        calc cols.length = col_stacks.length * spec.block_cols := hb
                          _ = spec.size / spec.block_cols * spec.block_cols := by rw [hlb]
                          _ ≤ spec.size := Nat.div_mul_le_self _ _
                      have hmap : ((rows.map (fun r =>
                          cols.map (fun c => digits.getD (pattern r c spec) 0))).map
                            List.length).sum = rows.length * cols.length := by
                        rw [List.map_map]
                        have : (List.length ∘ fun r =>
                            cols.map (fun c => digits.getD (pattern r c spec) 0)) =
                            fun _ => cols.length := by
                          funext r
                          simp
                        rw [this, List.map_const', List.sum_replicate, smul_eq_mul,
                          Nat.mul_comm]
                      rw [hmap]
                      exact Nat.mul_le_mul hrows hcols

/-- Every attempt reports at most `size²` clues. -/
theorem attempt_once_clues_le (spec : SudokuSpec) (target : Nat) (nl : Option Nat)
    (tl : Option ℚ) (rng : Rng) (clk : Clk) :
    (attempt_once spec target nl tl rng clk).1.clues ≤ spec.size * spec.size := by
  simp only [attempt_once]
  cases hgen : generate_full_solution spec rng with
  | mk sol rng1 =>
      dsimp only
      have hsol : count_clues sol ≤ spec.size * spec.size := by
        have := count_clues_generate_le spec rng
        rw [hgen] at this
        exact this
      cases tl with
      | none =>
          dsimp only
          refine le_trans ?_ hsol
          rw [remove_numbers_eq]
          exact (removeGo_props spec target nl none _ sol (count_clues sol) 0 clk).1
      | some t =>
          dsimp only
          refine le_trans ?_ hsol
          rw [remove_numbers_eq]
          exact (removeGo_props spec target nl _ _ sol (count_clues sol) 0 _).1

theorem attemptsList_length (spec : SudokuSpec) (target : Nat) (nl : Option Nat)
    (tl : Option ℚ) :
    ∀ (n : Nat) (rng : Rng) (clk : Clk),
      (attemptsList spec target nl tl n rng clk).length = n := by
  intro n
  induction n with
  | zero => intro rng clk; rfl
  | succ n ih =>
      intro rng clk
      simp only [attemptsList]
      rw [List.length_cons, ih]

theorem attemptsList_clues_le (spec : SudokuSpec) (target : Nat) (nl : Option Nat)
    (tl : Option ℚ) :
    ∀ (n : Nat) (rng : Rng) (clk : Clk) (a : Attempt),
      a ∈ attemptsList spec target nl tl n rng clk → a.clues ≤ spec.size * spec.size := by
  intro n
  induction n with
  | zero => intro rng clk a h; simp [attemptsList] at h
  | succ n ih =>
      intro rng clk a h
      simp only [attemptsList] at h
      rcases List.mem_cons.mp h with h | h
      · rw [h]
        exact attempt_once_clues_le spec target nl tl rng clk
      · exact ih _ _ a h

theorem absDiff_eq_zero {a b : Nat} : absDiff a b = 0 ↔ a = b := by
  unfold absDiff
  omega

theorem getD_mem {α : Type} {l : List α} {i : Nat} (h : i < l.length) (d : α) :
    l.getD i d ∈ l := by
  rw [List.getD_eq_getElem _ _ h]
  exact List.getElem_mem h

/-- One-step unfolding of the retry loop. -/
theorem genLoop_succ (spec : SudokuSpec) (target : Nat) (nl : Option Nat) (tl : Option ℚ)
    (n : Nat) (rng : Rng) (clk : Clk) (best : Option (Outcome × Nat)) :
    genLoop spec target nl tl (n + 1) rng clk best =
      (if absDiff (attempt_once spec target nl tl rng clk).1.clues target = 0 then
        (some (mkOutcome (attempt_once spec target nl tl rng clk).1 true),
          (attempt_once spec target nl tl rng clk).2.1,
          (attempt_once spec target nl tl rng clk).2.2)
      else
        genLoop spec target nl tl n (attempt_once spec target nl tl rng clk).2.1
          (attempt_once spec target nl tl rng clk).2.2
          (match best with
            | none => some (mkOutcome (attempt_once spec target nl tl rng clk).1 false,
                absDiff (attempt_once spec target nl tl rng clk).1.clues target)
            | some (b, bd) =>
                if absDiff (attempt_once spec target nl tl rng clk).1.clues target < bd then
                  some (mkOutcome (attempt_once spec target nl tl rng clk).1 false,
                    absDiff (attempt_once spec target nl tl rng clk).1.clues target)
                else some (b, bd))) := rfl

/-- One-step unfolding of the ghost attempt sequence. -/
theorem attemptsList_succ (spec : SudokuSpec) (target : Nat) (nl : Option Nat)
    (tl : Option ℚ) (n : Nat) (rng : Rng) (clk : Clk) :
    attemptsList spec target nl tl (n + 1) rng clk =
      (attempt_once spec target nl tl rng clk).1 ::
        attemptsList spec target nl tl n (attempt_once spec target nl tl rng clk).2.1
          (attempt_once spec target nl tl rng clk).2.2 := rfl

/-- Characterization of the retry loop run from a non-exact best accumulator:
the result is either the accumulator (when no later attempt beats it) or one
of the ghost attempts; in either case its deviation is minimal among the
accumulator and all attempts, and every attempt preceding the returned one
has nonzero deviation (an exact attempt returns immediately). -/
theorem genLoop_char (spec : SudokuSpec) (target : Nat) (nl : Option Nat) (tl : Option ℚ) :
    ∀ (n : Nat) (rng : Rng) (clk : Clk) (b : Outcome) (bd : Nat),
      b.exact = false → bd = absDiff b.clues target → bd ≠ 0 →
      ∃ out : Outcome,
        (genLoop spec target nl tl n rng clk (some (b, bd))).1 = some out ∧
        ((out = b ∧ ∀ j, j < n →
            bd ≤ absDiff (((attemptsList spec target nl tl n rng clk).getD j
              default).clues) target) ∨
         (∃ i, i < n ∧
            out = mkOutcome ((attemptsList spec target nl tl n rng clk).getD i default)
              (decide (absDiff (((attemptsList spec target nl tl n rng clk).getD i
                default).clues) target = 0)) ∧
            (∀ j, j < i →
              absDiff (((attemptsList spec target nl tl n rng clk).getD j
                default).clues) target ≠ 0) ∧
            absDiff out.clues target ≤ bd ∧
            (∀ j, j < n →
              absDiff out.clues target ≤
                absDiff (((attemptsList spec target nl tl n rng clk).getD j
                  default).clues) target))) := by
  intro n
  induction n with
  | zero =>
      intro rng clk b bd hbex hbd hbd0
      exact ⟨b, rfl, Or.inl ⟨rfl, fun j hj => absurd hj (by omega)⟩⟩
  | succ n ih =>
      intro rng clk b bd hbex hbd hbd0
      rw [genLoop_succ, attemptsList_succ]
      by_cases hd0 : absDiff (attempt_once spec target nl tl rng clk).1.clues target = 0
      · rw [if_pos hd0]
        refine ⟨mkOutcome (attempt_once spec target nl tl rng clk).1 true, rfl,
          Or.inr ⟨0, by omega, ?_, fun j hj => absurd hj (by omega), ?_, fun j _ => ?_⟩⟩
        · rw [show ((attempt_once spec target nl tl rng clk).1 ::
              attemptsList spec target nl tl n (attempt_once spec target nl tl rng clk).2.1
                (attempt_once spec target nl tl rng clk).2.2).getD 0 default =
              (attempt_once spec target nl tl rng clk).1 from rfl,
            decide_eq_true hd0]
        · rw [show (mkOutcome (attempt_once spec target nl tl rng clk).1 true).clues =
              (attempt_once spec target nl tl rng clk).1.clues from rfl, hd0]
          omega
        · rw [show (mkOutcome (attempt_once spec target nl tl rng clk).1 true).clues =
              (attempt_once spec target nl tl rng clk).1.clues from rfl, hd0]
          omega
      · rw [if_neg hd0]
        dsimp only
        by_cases hlt : absDiff (attempt_once spec target nl tl rng clk).1.clues target < bd
        · rw [if_pos hlt]
          obtain ⟨out, hres, hcase⟩ := ih (attempt_once spec target nl tl rng clk).2.1
            (attempt_once spec target nl tl rng clk).2.2
            (mkOutcome (attempt_once spec target nl tl rng clk).1 false)
            (absDiff (attempt_once spec target nl tl rng clk).1.clues target)
            rfl rfl hd0
          refine ⟨out, hres, Or.inr ?_⟩
          rcases hcase with ⟨houtb, hall⟩ | ⟨i, hi, hout, hbefore, hle, hall⟩
          · refine ⟨0, by omega, ?_, fun j hj => absurd hj (by omega), ?_, ?_⟩
            · rw [houtb, List.getD_cons_zero, decide_eq_false hd0]
            · rw [houtb]
              exact le_of_lt hlt
            · intro j hj
              rw [houtb]
              cases j with
              | zero => exact le_refl _
              | succ j =>
                  rw [show ((attempt_once spec target nl tl rng clk).1 ::
                      attemptsList spec target nl tl n
                        (attempt_once spec target nl tl rng clk).2.1
                        (attempt_once spec target nl tl rng clk).2.2).getD (j + 1) default =
                      (attemptsList spec target nl tl n
                        (attempt_once spec target nl tl rng clk).2.1
                        (attempt_once spec target nl tl rng clk).2.2).getD j default from rfl]
                  exact hall j (by omega)
          · refine ⟨i + 1, by omega, hout, ?_, le_trans hle (le_of_lt hlt), ?_⟩
            · intro j hj
              cases j with
              | zero => exact hd0
              | succ j => exact hbefore j (by omega)
            · intro j hj
              cases j with
              | zero => exact hle
              | succ j => exact hall j (by omega)
        · rw [if_neg hlt]
          obtain ⟨out, hres, hcase⟩ := ih (attempt_once spec target nl tl rng clk).2.1
            (attempt_once spec target nl tl rng clk).2.2 b bd hbex hbd hbd0
          refine ⟨out, hres, ?_⟩
          rcases hcase with ⟨houtb, hall⟩ | ⟨i, hi, hout, hbefore, hle, hall⟩
          · refine Or.inl ⟨houtb, ?_⟩
            intro j hj
            cases j with
            | zero => rw [List.getD_cons_zero]; omega
            | succ j => exact hall j (by omega)
          · refine Or.inr ⟨i + 1, by omega, hout, ?_, hle, ?_⟩
            · intro j hj
              cases j with
              | zero => exact hd0
              | succ j => exact hbefore j (by omega)
            · intro j hj
              cases j with
              | zero => rw [List.getD_cons_zero]; omega
              | succ j => exact hall j (by omega)

/-- C6: with at least one try, `generate_puzzle` returns an outcome that is
one of its attempts {draw a full solution, reduce it}; it is the first
attempt whose achieved clue count hits the target exactly (marked
`exact = true`) when one exists — every earlier attempt has nonzero
deviation — and otherwise an attempt with minimal deviation
|achieved − target| (marked `exact = false`); in every case
`exact = true ↔ achieved = target`, and the achieved clue count is at most
`size²`. -/
theorem generate_puzzle_best (spec : SudokuSpec) (target : Nat) (rng : Rng)
    (maxTries : Nat) (nl : Option Nat) (tl : Option ℚ) (clk : Clk)
    (hmt : 1 ≤ maxTries) :
    ∃ (out : Outcome) (i : Nat),
      (generate_puzzle spec target rng maxTries nl tl clk).1 = some out ∧
      i < maxTries ∧
      out = mkOutcome ((attemptsList spec target nl tl maxTries rng clk).getD i default)
        (decide (absDiff (((attemptsList spec target nl tl maxTries rng clk).getD i
          default).clues) target = 0)) ∧
      (∀ j, j < i → absDiff (((attemptsList spec target nl tl maxTries rng clk).getD j
        default).clues) target ≠ 0) ∧
      (∀ j, j < maxTries → absDiff out.clues target ≤
        absDiff (((attemptsList spec target nl tl maxTries rng clk).getD j
          default).clues) target) ∧
      (out.exact = true ↔ out.clues = target) ∧
      out.clues ≤ spec.size * spec.size := by
  cases maxTries with
  | zero => omega
  | succ m =>
      show ∃ (out : Outcome) (i : Nat),
        (genLoop spec target nl tl (m + 1) rng clk none).1 = some out ∧ _
      rw [genLoop_succ, attemptsList_succ]
      by_cases hd0 : absDiff (attempt_once spec target nl tl rng clk).1.clues target = 0
      · rw [if_pos hd0]
        refine ⟨mkOutcome (attempt_once spec target nl tl rng clk).1 true, 0, rfl,
          by omega, ?_, fun j hj => absurd hj (by omega), fun j _ => ?_, ?_, ?_⟩
        · rw [List.getD_cons_zero, decide_eq_true hd0]
        · rw [show (mkOutcome (attempt_once spec target nl tl rng clk).1 true).clues =
            (attempt_once spec target nl tl rng clk).1.clues from rfl, hd0]
          omega
        · rw [show (mkOutcome (attempt_once spec target nl tl rng clk).1 true).exact =
            true from rfl]
          rw [show (mkOutcome (attempt_once spec target nl tl rng clk).1 true).clues =
            (attempt_once spec target nl tl rng clk).1.clues from rfl]
          exact iff_of_true rfl (absDiff_eq_zero.mp hd0)
        · exact attempt_once_clues_le spec target nl tl rng clk
      · rw [if_neg hd0]
        dsimp only
        obtain ⟨out, hres, hcase⟩ := genLoop_char spec target nl tl m
          (attempt_once spec target nl tl rng clk).2.1
          (attempt_once spec target nl tl rng clk).2.2
          (mkOutcome (attempt_once spec target nl tl rng clk).1 false)
          (absDiff (attempt_once spec target nl tl rng clk).1.clues target) rfl rfl hd0
        rcases hcase with ⟨houtb, hall⟩ | ⟨i, hi, hout, hbefore, hle, hall⟩
        · refine ⟨out, 0, hres, by omega, ?_, fun j hj => absurd hj (by omega),
            fun j hj => ?_, ?_, ?_⟩
          · rw [houtb, List.getD_cons_zero, decide_eq_false hd0]
          · rw [houtb]
            cases j with
            | zero =>
                rw [List.getD_cons_zero]
                exact le_refl _
            | succ j =>
                rw [show ((attempt_once spec target nl tl rng clk).1 ::
                    attemptsList spec target nl tl m
                      (attempt_once spec target nl tl rng clk).2.1
                      (attempt_once spec target nl tl rng clk).2.2).getD (j + 1) default =
                    (attemptsList spec target nl tl m
                      (attempt_once spec target nl tl rng clk).2.1
                      (attempt_once spec target nl tl rng clk).2.2).getD j default from rfl]
                exact hall j (by omega)
          · rw [houtb]
            exact iff_of_false (by simp [mkOutcome])
              (fun hc => hd0 (absDiff_eq_zero.mpr hc))
          · rw [houtb]
            exact attempt_once_clues_le spec target nl tl rng clk
        · refine ⟨out, i + 1, hres, by omega, hout, ?_, ?_, ?_, ?_⟩
          · intro j hj
            cases j with
            | zero => exact hd0
            | succ j => exact hbefore j (by omega)
          · intro j hj
            cases j with
            | zero => rw [List.getD_cons_zero]; exact hle
            | succ j =>
                rw [show ((attempt_once spec target nl tl rng clk).1 ::
                    attemptsList spec target nl tl m
                      (attempt_once spec target nl tl rng clk).2.1
                      (attempt_once spec target nl tl rng clk).2.2).getD (j + 1) default =
                    (attemptsList spec target nl tl m
                      (attempt_once spec target nl tl rng clk).2.1
                      (attempt_once spec target nl tl rng clk).2.2).getD j default from rfl]
                exact hall j (by omega)
          · rw [hout]
            simp only [mkOutcome, decide_eq_true_eq]
            exact absDiff_eq_zero
          · rw [hout]
            show ((attemptsList spec target nl tl m
              (attempt_once spec target nl tl rng clk).2.1
              (attempt_once spec target nl tl rng clk).2.2).getD i default).clues ≤ _
            refine attemptsList_clues_le spec target nl tl m _ _ _ (getD_mem ?_ _)
            rw [attemptsList_length]
            exact hi

/-- C6 witness: the theorem applied at a single-try call on the 2 × 2 spec. -/
theorem generate_puzzle_best_witness :
    (1 : Nat) ≤ 1 ∧
    ∃ (out : Outcome) (i : Nat),
      (generate_puzzle ⟨2,1,2⟩ 3 ⟨fun _ => 0, 0⟩ 1 none none ⟨fun _ => 0, 0⟩).1 = some out ∧
      i < 1 ∧
      out = mkOutcome ((attemptsList ⟨2,1,2⟩ 3 none none 1 ⟨fun _ => 0, 0⟩
          ⟨fun _ => 0, 0⟩).getD i default)
        (decide (absDiff (((attemptsList ⟨2,1,2⟩ 3 none none 1 ⟨fun _ => 0, 0⟩
          ⟨fun _ => 0, 0⟩).getD i default).clues) 3 = 0)) ∧
      (∀ j, j < i → absDiff (((attemptsList ⟨2,1,2⟩ 3 none none 1 ⟨fun _ => 0, 0⟩
        ⟨fun _ => 0, 0⟩).getD j default).clues) 3 ≠ 0) ∧
      (∀ j, j < 1 → absDiff out.clues 3 ≤
        absDiff (((attemptsList ⟨2,1,2⟩ 3 none none 1 ⟨fun _ => 0, 0⟩
          ⟨fun _ => 0, 0⟩).getD j default).clues) 3) ∧
      (out.exact = true ↔ out.clues = 3) ∧
      out.clues ≤ 2 * 2 :=
  ⟨by decide,
    generate_puzzle_best ⟨2,1,2⟩ 3 ⟨fun _ => 0, 0⟩ 1 none none ⟨fun _ => 0, 0⟩ (by decide)⟩

/-! ### Claim C5: validity of the generated full solution -/

/-- Row `i` of a grid. -/
def rowList (g : List (List Nat)) (i : Nat) : List Nat := g.getD i []

/-- Column `j` of a `size × size` grid. -/
def colList (g : List (List Nat)) (size j : Nat) : List Nat :=
  (List.range size).map (fun i => gget g i j)

/-- Block `(B, S)` of a grid (band `B` of `block_rows` rows, stack `S` of
`block_cols` columns). -/
def boxList (g : List (List Nat)) (spec : SudokuSpec) (B S : Nat) : List Nat :=
  ((List.range spec.block_rows) ×ˢ (List.range spec.block_cols)).map
    (fun ut => gget g (B * spec.block_rows + ut.1) (S * spec.block_cols + ut.2))

/-- A full valid solution: every row, column and block contains each digit
`1..size` exactly once. -/
def ValidSolution (spec : SudokuSpec) (g : List (List Nat)) : Prop :=
  (∀ i < spec.size, ∀ d ∈ Finset.Icc 1 spec.size, (rowList g i).count d = 1) ∧
  (∀ j < spec.size, ∀ d ∈ Finset.Icc 1 spec.size, (colList g spec.size j).count d = 1) ∧
  (∀ B < spec.size / spec.block_rows, ∀ S < spec.size / spec.block_cols,
    ∀ d ∈ Finset.Icc 1 spec.size, (boxList g spec B S).count d = 1)

/-- A duplicate-free list of `n` values inside `1..n` contains each of them
exactly once. -/
theorem count_eq_one_of_nodup (l : List Nat) (n : Nat) (hn : l.Nodup) (hl : l.length = n)
    (hsub : ∀ x ∈ l, x ∈ Finset.Icc 1 n) : ∀ d ∈ Finset.Icc 1 n, l.count d = 1 := by
  have hcard : l.toFinset.card = n := by rw [List.toFinset_card_of_nodup hn, hl]
  have hsubs : l.toFinset ⊆ Finset.Icc 1 n := fun x hx => hsub x (List.mem_toFinset.mp hx)
  have heq : l.toFinset = Finset.Icc 1 n := by
    refine Finset.eq_of_subset_of_card_le hsubs ?_
    rw [hcard, Nat.card_Icc]
    omega
  intro d hd
  exact List.count_eq_one_of_mem hn (List.mem_toFinset.mp (by rw [heq]; exact hd))

/-- Adding a constant modulo `n` is injective on `[0, n)`. -/
theorem add_mod_inj {n K c₁ c₂ : Nat} (h₁ : c₁ < n) (h₂ : c₂ < n)
    (h : (K + c₁) % n = (K + c₂) % n) : c₁ = c₂ := by
  have hmod : c₁ % n = c₂ % n := Nat.ModEq.add_left_cancel' K h
  rwa [Nat.mod_eq_of_lt h₁, Nat.mod_eq_of_lt h₂] at hmod

/-- Mixed-radix uniqueness: `b * s + t` with `t < b` determines `s` and `t`. -/
theorem mixed_radix_inj {b s₁ t₁ s₂ t₂ : Nat} (hb : 0 < b) (ht₁ : t₁ < b) (ht₂ : t₂ < b)
    (h : b * s₁ + t₁ = b * s₂ + t₂) : s₁ = s₂ ∧ t₁ = t₂ := by
  have hs : s₁ = s₂ := by
    have h1 : (b * s₁ + t₁) / b = s₁ := by
      rw [Nat.mul_add_div hb, Nat.div_eq_of_lt ht₁, Nat.add_zero]
    have h2 : (b * s₂ + t₂) / b = s₂ := by
      rw [Nat.mul_add_div hb, Nat.div_eq_of_lt ht₂, Nat.add_zero]
    rw [← h1, ← h2, h]
  refine ⟨hs, ?_⟩
  subst hs
  omega

/-- The transposition `r ↦ bc * (r % br) + r / br` is injective on `[0, br*bc)`. -/
theorem transpose_inj {br bc r₁ r₂ : Nat} (hbr : 0 < br) (hbc : 0 < bc)
    (hr₁ : r₁ < br * bc) (hr₂ : r₂ < br * bc)
    (h : bc * (r₁ % br) + r₁ / br = bc * (r₂ % br) + r₂ / br) : r₁ = r₂ := by
  have hd₁ : r₁ / br < bc := by
    rw [Nat.div_lt_iff_lt_mul hbr]
    calc r₁ < br * bc := hr₁
      _ = bc * br := Nat.mul_comm _ _
  have hd₂ : r₂ / br < bc := by
    rw [Nat.div_lt_iff_lt_mul hbr]
    calc r₂ < br * bc := hr₂
      _ = bc * br := Nat.mul_comm _ _
  obtain ⟨hm, hdiv⟩ := mixed_radix_inj hbc hd₁ hd₂ h
  have e₁ := Nat.div_add_mod r₁ br
  have e₂ := Nat.div_add_mod r₂ br
  rw [hm, hdiv] at e₁
  omega

/-- The transposition stays below `br * bc`. -/
theorem transpose_lt {br bc r : Nat} (hbr : 0 < br) (hbc : 0 < bc) (hr : r < br * bc) :
    bc * (r % br) + r / br < br * bc := by
  have hm : r % br ≤ br - 1 := by
    have := Nat.mod_lt r hbr
    omega
  have hd : r / br < bc := by
    rw [Nat.div_lt_iff_lt_mul hbr]
    calc r < br * bc := hr
      _ = bc * br := Nat.mul_comm _ _
  calc bc * (r % br) + r / br ≤ bc * (br - 1) + (bc - 1) := by
        have := Nat.mul_le_mul_left bc hm
        omega
    _ < br * bc := by
        have h1 : bc * (br - 1) + bc = bc * br := by
          rw [← Nat.mul_succ]
          congr 1
          omega
        have := Nat.mul_comm bc br
        omega

end SudokuBook

namespace SudokuBook

/-! ### Claims C7, C8, C9: pagination and margin arithmetic -/

/-- C7 counterexample: the claim asserts `required_inside_margin_no_bleed 100 = 0.5`,
but a 100-page book falls in the 24–150 bucket of `KDP_INSIDE_GUTTER_TABLE`,
whose gutter is 0.375 inch. -/
theorem required_inside_margin_at_100_is_three_eighths :
    required_inside_margin_no_bleed 100 = 3/8 ∧ required_inside_margin_no_bleed 100 ≠ 1/2 := by
  constructor <;> norm_num [required_inside_margin_no_bleed, KDP_INSIDE_GUTTER_TABLE, List.find?]

/-- C7 (amended): for 100 even pages with margin 0.5 in and no extra gutter the
required gutter is 0.375 in and the built inside margin is 0.5 in (the outside
margin dominates); in general the built spec has outside margin
`max(user, 0.25)` and inside margin `max(required, outside) + max(0, extra)`. -/
theorem build_margin_spec_no_bleed_spec (pc : Int) (user extra : ℚ) :
    required_inside_margin_no_bleed 100 = 3/8 ∧
    (build_margin_spec_no_bleed 100 (1/2) 0).inside_in = 1/2 ∧
    (build_margin_spec_no_bleed pc user extra).outside_in = max user (1/4) ∧
    (build_margin_spec_no_bleed pc user extra).inside_in =
      max (required_inside_margin_no_bleed pc)
        ((build_margin_spec_no_bleed pc user extra).outside_in) + max 0 extra := by
  refine ⟨?_, ?_, ?_, ?_⟩
  · norm_num [required_inside_margin_no_bleed, KDP_INSIDE_GUTTER_TABLE, List.find?]
  · norm_num [build_margin_spec_no_bleed, required_inside_margin_no_bleed,
      KDP_INSIDE_GUTTER_TABLE, List.find?, KDP_MIN_OUTSIDE_TOP_BOTTOM_IN]
  · simp [build_margin_spec_no_bleed, KDP_MIN_OUTSIDE_TOP_BOTTOM_IN, max_comm]
  · simp [build_margin_spec_no_bleed]

/-- C8: `compute_even_page_count` maps every nonpositive count to 0, returns
an even number that is at least the input and exceeds it by at most one, and
is idempotent. -/
theorem compute_even_page_count_spec (n : Int) :
    0 ≤ compute_even_page_count n ∧
    2 ∣ compute_even_page_count n ∧
    (n ≤ 0 → compute_even_page_count n = 0) ∧
    (0 < n → n ≤ compute_even_page_count n ∧ compute_even_page_count n ≤ n + 1) ∧
    compute_even_page_count (compute_even_page_count n) = compute_even_page_count n := by
  simp only [compute_even_page_count]
  split_ifs <;> omega

/-- C8 witness: the theorem applied at 5. -/
theorem compute_even_page_count_spec_witness :
    (5 : Int) ≤ compute_even_page_count 5 ∧
    compute_even_page_count (compute_even_page_count 5) = compute_even_page_count 5 :=
  ⟨((compute_even_page_count_spec 5).2.2.2.1 (by decide)).1,
    (compute_even_page_count_spec 5).2.2.2.2⟩

/-- C9: `layout_from_per_page` clamps the request to at least 1, takes
`rows = floor (sqrt request)` and `cols = ceil (request / rows)`, both at
least 1 (hence `rows * cols ≥ 1`), with `4 ↦ (2, 2)` and `5 ↦ (2, 3)`. -/
theorem layout_from_per_page_spec (n : Int) :
    (layout_from_per_page n).1 = Nat.sqrt (max 1 n).toNat ∧
    (layout_from_per_page n).2 =
      ((max 1 n).toNat + (layout_from_per_page n).1 - 1) / (layout_from_per_page n).1 ∧
    1 ≤ (layout_from_per_page n).1 ∧
    1 ≤ (layout_from_per_page n).2 ∧
    1 ≤ (layout_from_per_page n).1 * (layout_from_per_page n).2 ∧
    layout_from_per_page 4 = (2, 2) ∧ layout_from_per_page 5 = (2, 3) := by
  have hpp : 1 ≤ (max 1 n).toNat := by
    have : (1 : Int) ≤ max 1 n := le_max_left 1 n
    omega
  have hsq : 1 ≤ Nat.sqrt (max 1 n).toNat := by
    have := Nat.sqrt_pos.mpr hpp
    omega
  have hrows : (layout_from_per_page n).1 = Nat.sqrt (max 1 n).toNat := by
    simp only [layout_from_per_page]
    omega
  have hcols : (layout_from_per_page n).2 =
      ((max 1 n).toNat + (layout_from_per_page n).1 - 1) / (layout_from_per_page n).1 := by
    simp only [layout_from_per_page]
  have hs4 : Nat.sqrt 4 = 2 := by
    have h1 : 2 ≤ Nat.sqrt 4 := Nat.le_sqrt.mpr (by norm_num)
    have h2 : Nat.sqrt 4 < 3 := Nat.sqrt_lt.mpr (by norm_num)
    omega
  have hs5 : Nat.sqrt 5 = 2 := by
    have h1 : 2 ≤ Nat.sqrt 5 := Nat.le_sqrt.mpr (by norm_num)
    have h2 : Nat.sqrt 5 < 3 := Nat.sqrt_lt.mpr (by norm_num)
    omega
  refine ⟨hrows, hcols, ?_, ?_, ?_,
    by simp [layout_from_per_page, hs4], by simp [layout_from_per_page, hs5]⟩
  · omega
  · rw [hcols]
    rw [hrows]
    exact Nat.le_div_iff_mul_le (by omega) |>.mpr (by omega)
  · have h1 : 1 ≤ (layout_from_per_page n).1 := by omega
    have h2 : 1 ≤ (layout_from_per_page n).2 := by
      rw [hcols, hrows]
      exact Nat.le_div_iff_mul_le (by omega) |>.mpr (by omega)
    exact Nat.one_le_iff_ne_zero.mpr (by positivity)

/-- The band/stack comprehension is a permutation of the corresponding
un-shuffled chunks. -/
theorem bandConcat_perm (blockLen : Nat) :
    ∀ (bands : List Nat) (r : Rng),
      ((bandConcat blockLen bands r).1).Perm
        (bands.flatMap (fun b => (List.range blockLen).map (fun u => b * blockLen + u))) := by
  intro bands
  induction bands with
  | nil => intro r; simp [bandConcat]
  | cons band bs ih =>
      intro r
      simp only [bandConcat, List.flatMap_cons]
      cases h1 : shuffle (List.range blockLen) r with
      | mk inner r1 =>
          cases h2 : bandConcat blockLen bs r1 with
          | mk rest r2 =>
              dsimp only
              have hinner : inner.Perm (List.range blockLen) := by
                have := shuffle_perm (List.range blockLen) r
                rw [h1] at this
                exact this
              have hrest : rest.Perm
                  (bs.flatMap (fun b => (List.range blockLen).map
                    (fun u => b * blockLen + u))) := by
                have := ih r1
                rw [h2] at this
                exact this
              exact (hinner.map _).append hrest

/-- Concatenating the chunks of all of `range n` gives `range (n * blockLen)`. -/
theorem range_flatMap_chunks (blockLen : Nat) :
    ∀ n : Nat, (List.range n).flatMap
        (fun b => (List.range blockLen).map (fun u => b * blockLen + u)) =
      List.range (n * blockLen) := by
  intro n
  induction n with
  | zero => simp
  | succ n ih =>
      rw [List.range_succ, List.flatMap_append, ih, List.flatMap_cons, List.flatMap_nil,
        List.append_nil, Nat.succ_mul, List.range_add]

/-- The generated row (or column) order is a permutation of `range size`,
provided the bands are a permutation of `range (size / blockLen)`. -/
theorem bandConcat_perm_range {blockLen size : Nat} {bands : List Nat} (r : Rng)
    (hb : bands.Perm (List.range (size / blockLen))) (hdvd : size / blockLen * blockLen = size) :
    ((bandConcat blockLen bands r).1).Perm (List.range size) := by
  refine (bandConcat_perm blockLen bands r).trans ?_
  have h1 : (bands.flatMap (fun b => (List.range blockLen).map (fun u => b * blockLen + u))).Perm
      ((List.range (size / blockLen)).flatMap
        (fun b => (List.range blockLen).map (fun u => b * blockLen + u))) := by
    rw [List.flatMap_def, List.flatMap_def]
    exact (hb.map _).flatten
  rw [range_flatMap_chunks, hdvd] at h1
  exact h1

/-- Positional structure of the band comprehension: within band slot `B` the
entries are `bands[B] * blockLen + inner[u]` for one shuffled `inner`. -/
theorem bandConcat_getD (blockLen : Nat) :
    ∀ (bands : List Nat) (r : Rng) (B : Nat), B < bands.length →
      ∃ inner : List Nat, inner.Perm (List.range blockLen) ∧
        ∀ u, u < blockLen →
          ((bandConcat blockLen bands r).1).getD (B * blockLen + u) 0 =
            bands.getD B 0 * blockLen + inner.getD u 0 := by
  intro bands
  induction bands with
  | nil => intro r B hB; simp at hB
  | cons band bs ih =>
      intro r B hB
      simp only [bandConcat]
      cases h1 : shuffle (List.range blockLen) r with
      | mk inner r1 =>
          cases h2 : bandConcat blockLen bs r1 with
          | mk rest r2 =>
              dsimp only
              have hinner : inner.Perm (List.range blockLen) := by
                have := shuffle_perm (List.range blockLen) r
                rw [h1] at this
                exact this
              have hlen : (inner.map (fun i => band * blockLen + i)).length = blockLen := by
                rw [List.length_map, hinner.length_eq, List.length_range]
              cases B with
              | zero =>
                  refine ⟨inner, hinner, fun u hu => ?_⟩
                  rw [Nat.zero_mul, Nat.zero_add, List.getD_append _ _ _ _ (by omega),
                    List.getD_cons_zero]
                  have hu' : u < inner.length := by
                    rw [hinner.length_eq, List.length_range]
                    exact hu
                  rw [List.getD_eq_getElem _ _ (by simpa using hu'), List.getElem_map,
                    List.getD_eq_getElem _ _ hu']
              | succ B =>
                  have hB' : B < bs.length := by simpa using hB
                  obtain ⟨inner', hinner', hval⟩ := ih r1 B hB'
                  refine ⟨inner', hinner', fun u hu => ?_⟩
                  have hidx : (B + 1) * blockLen + u =
                      (inner.map (fun i => band * blockLen + i)).length +
                        (B * blockLen + u) := by
                    rw [hlen]
                    ring
                  rw [hidx, List.getD_append_right _ _ _ _ (by omega), Nat.add_sub_cancel_left,
                    show rest.getD (B * blockLen + u) 0 =
                      ((bandConcat blockLen bs r1).1).getD (B * blockLen + u) 0 from by
                        rw [h2], hval u hu, List.getD_cons_succ]

/-- Adding a constant modulo `n` is injective on `[0, n)` (right constant). -/
theorem add_mod_inj_right {n K a b : Nat} (ha : a < n) (hb : b < n)
    (h : (a + K) % n = (b + K) % n) : a = b := by
  have hmod : a % n = b % n := Nat.ModEq.add_right_cancel' K h
  rwa [Nat.mod_eq_of_lt ha, Nat.mod_eq_of_lt hb] at hmod

/-- Mixed-radix values stay below the product. -/
theorem mixed_lt {br bc s t : Nat} (hs : s < br) (ht : t < bc) :
    bc * s + t < br * bc := by
  have h1 : bc * s + bc ≤ bc * br := by
    rw [← Nat.mul_succ]
    exact Nat.mul_le_mul_left bc hs
  have := Nat.mul_comm bc br
  omega

/-- The base pattern always lands in `[0, size)`. -/
theorem pattern_lt {r c : Nat} {spec : SudokuSpec} (hsize : 0 < spec.size) :
    pattern r c spec < spec.size :=
  Nat.mod_lt _ hsize

/-- Indexing a permutation of `1..size` is injective below `size`. -/
theorem digits_getD_inj {digits : List Nat} {size : Nat}
    (hperm : digits.Perm (List.range' 1 size)) {p q : Nat} (hp : p < size) (hq : q < size)
    (h : digits.getD p 0 = digits.getD q 0) : p = q := by
  have hlen : digits.length = size := by
    rw [hperm.length_eq, List.length_range']
  have hnd : digits.Nodup := hperm.nodup_iff.mpr (List.nodup_range' 1 size)
  have hp' : p < digits.length := by omega
  have hq' : q < digits.length := by omega
  rw [List.getD_eq_getElem _ _ hp', List.getD_eq_getElem _ _ hq'] at h
  exact (hnd.getElem_inj_iff.mp h)

/-- Indexing a permutation of `1..size` below `size` yields a digit in
`1..size`. -/
theorem digits_getD_mem {digits : List Nat} {size : Nat}
    (hperm : digits.Perm (List.range' 1 size)) {p : Nat} (hp : p < size) :
    digits.getD p 0 ∈ Finset.Icc 1 size := by
  have hlen : digits.length = size := by
    rw [hperm.length_eq, List.length_range']
  have hmem : digits.getD p 0 ∈ digits := getD_mem (by omega) 0
  have := hperm.mem_iff.mp hmem
  rw [List.mem_range'] at this
  obtain ⟨i, hi, hx⟩ := this
  rw [Finset.mem_Icc]
  omega

/-- Row `i` of the generated grid as a map over the permuted column order. -/
theorem rowList_pattern_grid (digits cols rows : List Nat) (spec : SudokuSpec) {i : Nat}
    (hi : i < rows.length) :
    rowList (rows.map (fun r => cols.map (fun c => digits.getD (pattern r c spec) 0))) i =
      cols.map (fun c => digits.getD (pattern (rows.getD i 0) c spec) 0) := by
  unfold rowList
  rw [List.getD_eq_getElem _ _ (by simpa using hi), List.getElem_map,
    List.getD_eq_getElem _ _ hi]

/-- Cell `(i, j)` of the generated grid, in terms of the permuted indices. -/
theorem gget_pattern_grid (digits cols rows : List Nat) (spec : SudokuSpec) {i j : Nat}
    (hi : i < rows.length) (hj : j < cols.length) :
    gget (rows.map (fun r => cols.map (fun c => digits.getD (pattern r c spec) 0))) i j =
      digits.getD (pattern (rows.getD i 0) (cols.getD j 0) spec) 0 := by
  show (rowList (rows.map (fun r => cols.map (fun c =>
    digits.getD (pattern r c spec) 0))) i).getD j 0 = _
  rw [rowList_pattern_grid digits cols rows spec hi,
    List.getD_eq_getElem _ _ (by simpa using hj), List.getElem_map,
    List.getD_eq_getElem _ _ hj]

/-- Core validity argument: for any digit relabeling that is a permutation of
`1..size`, any row and column orders that are permutations of `range size`
and that are band-structured (each band slot holds one whole original band,
internally permuted), the grid `digits[pattern(rows[i], cols[j])]` is a valid
solution: each digit appears exactly once in every row, column and block. -/
theorem valid_of_parts (spec : SudokuSpec)
    (hsz : spec.size = spec.block_rows * spec.block_cols)
    (hbr : 0 < spec.block_rows) (hbc : 0 < spec.block_cols)
    (digits rows cols : List Nat)
    (hdig : digits.Perm (List.range' 1 spec.size))
    (hrows : rows.Perm (List.range spec.size))
    (hcols : cols.Perm (List.range spec.size))
    (hrowsB : ∀ B, B < spec.size / spec.block_rows →
      ∃ (b : Nat) (inner : List Nat), inner.Perm (List.range spec.block_rows) ∧
        ∀ u, u < spec.block_rows →
          rows.getD (B * spec.block_rows + u) 0 = b * spec.block_rows + inner.getD u 0)
    (hcolsS : ∀ S, S < spec.size / spec.block_cols →
      ∃ (cS : Nat) (innerC : List Nat), innerC.Perm (List.range spec.block_cols) ∧
        ∀ t, t < spec.block_cols →
          cols.getD (S * spec.block_cols + t) 0 = cS * spec.block_cols + innerC.getD t 0) :
    ValidSolution spec
      (rows.map (fun r => cols.map (fun c => digits.getD (pattern r c spec) 0))) := by
  have hsize : 0 < spec.size := by
    rw [hsz]
    exact Nat.mul_pos hbr hbc
  have hrows_len : rows.length = spec.size := by rw [hrows.length_eq, List.length_range]
  have hcols_len : cols.length = spec.size := by rw [hcols.length_eq, List.length_range]
  have hrows_nd : rows.Nodup := hrows.nodup_iff.mpr (List.nodup_range _)
  have hcols_nd : cols.Nodup := hcols.nodup_iff.mpr (List.nodup_range _)
  have hrows_lt : ∀ x ∈ rows, x < spec.size := fun x hx =>
    List.mem_range.mp (hrows.mem_iff.mp hx)
  have hcols_lt : ∀ x ∈ cols, x < spec.size := fun x hx =>
    List.mem_range.mp (hcols.mem_iff.mp hx)
  have htrans_lt : ∀ r, r < spec.size →
      spec.block_cols * (r % spec.block_rows) + r / spec.block_rows < spec.size := by
    intro r hr
    rw [hsz]
    exact transpose_lt hbr hbc (by rw [← hsz]; exact hr)
  refine ⟨?_, ?_, ?_⟩
  · -- rows of the grid
    intro i hi d hd
    rw [rowList_pattern_grid digits cols rows spec (by omega)]
    refine count_eq_one_of_nodup _ spec.size ?_ ?_ ?_ d hd
    · refine List.Nodup.map_on ?_ hcols_nd
      intro x hx y hy hxy
      have hpat := digits_getD_inj hdig (pattern_lt hsize) (pattern_lt hsize) hxy
      unfold pattern at hpat
      exact add_mod_inj (hcols_lt x hx) (hcols_lt y hy) hpat
    · rw [List.length_map, hcols_len]
    · intro v hv
      obtain ⟨c, _, rfl⟩ := List.mem_map.mp hv
      exact digits_getD_mem hdig (pattern_lt hsize)
  · -- columns of the grid
    intro j hj d hd
    unfold colList
    refine count_eq_one_of_nodup _ spec.size ?_ ?_ ?_ d hd
    · refine List.Nodup.map_on ?_ (List.nodup_range _)
      intro x hx y hy hxy
      have hx' : x < spec.size := List.mem_range.mp hx
      have hy' : y < spec.size := List.mem_range.mp hy
      rw [gget_pattern_grid digits cols rows spec (by omega) (by omega),
        gget_pattern_grid digits cols rows spec (by omega) (by omega)] at hxy
      have hpat := digits_getD_inj hdig (pattern_lt hsize) (pattern_lt hsize) hxy
      unfold pattern at hpat
      have hrx : rows.getD x 0 < spec.size := hrows_lt _ (getD_mem (by omega) 0)
      have hry : rows.getD y 0 < spec.size := hrows_lt _ (getD_mem (by omega) 0)
      have heqt := add_mod_inj_right (htrans_lt _ hrx) (htrans_lt _ hry) hpat
      have hreq : rows.getD x 0 = rows.getD y 0 :=
        transpose_inj hbr hbc (by rw [← hsz]; exact hrx) (by rw [← hsz]; exact hry) heqt
      rw [List.getD_eq_getElem rows 0 (show x < rows.length by omega),
        List.getD_eq_getElem rows 0 (show y < rows.length by omega)] at hreq
      exact hrows_nd.getElem_inj_iff.mp hreq
    · rw [List.length_map, List.length_range]
    · intro v hv
      obtain ⟨i, hi, rfl⟩ := List.mem_map.mp hv
      have hi' : i < spec.size := List.mem_range.mp hi
      rw [gget_pattern_grid digits cols rows spec (by omega) (by omega)]
      exact digits_getD_mem hdig (pattern_lt hsize)
  · -- blocks of the grid
    intro B hB S hS d hd
    obtain ⟨b, inner, hinner, hrowval⟩ := hrowsB B hB
    obtain ⟨cS, innerC, hinnerC, hcolval⟩ := hcolsS S hS
    have hdivr : spec.size / spec.block_rows = spec.block_cols := by
      rw [hsz]
      exact Nat.mul_div_cancel_left _ hbr
    have hdivc : spec.size / spec.block_cols = spec.block_rows := by
      rw [hsz]
      exact Nat.mul_div_cancel _ hbc
    have hidx_row : ∀ u, u < spec.block_rows → B * spec.block_rows + u < spec.size := by
      intro u hu
      have h1 : B + 1 ≤ spec.block_cols := by rw [hdivr] at hB; omega
      have h2 : (B + 1) * spec.block_rows ≤ spec.block_cols * spec.block_rows :=
        Nat.mul_le_mul_right _ h1
      have h3 : spec.block_cols * spec.block_rows = spec.size := by
        rw [hsz, Nat.mul_comm]
      have h4 : (B + 1) * spec.block_rows = B * spec.block_rows + spec.block_rows :=
        Nat.succ_mul _ _
      omega
    have hidx_col : ∀ t, t < spec.block_cols → S * spec.block_cols + t < spec.size := by
      intro t ht
      have h1 : S + 1 ≤ spec.block_rows := by rw [hdivc] at hS; omega
      have h2 : (S + 1) * spec.block_cols ≤ spec.block_rows * spec.block_cols :=
        Nat.mul_le_mul_right _ h1
      have h3 : spec.block_rows * spec.block_cols = spec.size := hsz.symm
      have h4 : (S + 1) * spec.block_cols = S * spec.block_cols + spec.block_cols :=
        Nat.succ_mul _ _
      omega
    have hinner_len : inner.length = spec.block_rows := by
      rw [hinner.length_eq, List.length_range]
    have hinnerC_len : innerC.length = spec.block_cols := by
      rw [hinnerC.length_eq, List.length_range]
    have hs_lt : ∀ u, u < spec.block_rows → inner.getD u 0 < spec.block_rows := by
      intro u hu
      exact List.mem_range.mp (hinner.mem_iff.mp (getD_mem (by omega) 0))
    have ht_lt : ∀ t, t < spec.block_cols → innerC.getD t 0 < spec.block_cols := by
      intro t ht
      exact List.mem_range.mp (hinnerC.mem_iff.mp (getD_mem (by omega) 0))
    have hpat_box : ∀ u t, u < spec.block_rows → t < spec.block_cols →
        pattern (rows.getD (B * spec.block_rows + u) 0)
          (cols.getD (S * spec.block_cols + t) 0) spec =
        ((spec.block_cols * inner.getD u 0 + innerC.getD t 0) +
          (b + cS * spec.block_cols)) % spec.size := by
      intro u t hu ht
      rw [hrowval u hu, hcolval t ht]
      unfold pattern
      have hmod : (b * spec.block_rows + inner.getD u 0) % spec.block_rows =
          inner.getD u 0 := by
        rw [Nat.mul_comm b spec.block_rows, Nat.mul_add_mod,
          Nat.mod_eq_of_lt (hs_lt u hu)]
      have hdiv : (b * spec.block_rows + inner.getD u 0) / spec.block_rows = b := by
        rw [Nat.mul_comm b spec.block_rows, Nat.mul_add_div hbr,
          Nat.div_eq_of_lt (hs_lt u hu), Nat.add_zero]
      rw [hmod, hdiv]
      congr 1
      ring
    unfold boxList
    refine count_eq_one_of_nodup _ spec.size ?_ ?_ ?_ d hd
    · refine List.Nodup.map_on ?_ ((List.nodup_range _).product (List.nodup_range _))
      intro x hx y hy hxy
      obtain ⟨u₁, t₁⟩ := x
      obtain ⟨u₂, t₂⟩ := y
      obtain ⟨hu₁, ht₁⟩ := List.mem_product.mp hx
      obtain ⟨hu₂, ht₂⟩ := List.mem_product.mp hy
      rw [List.mem_range] at hu₁ ht₁ hu₂ ht₂
      dsimp only at hxy
      rw [gget_pattern_grid digits cols rows spec (by rw [hrows_len]; exact hidx_row _ hu₁)
          (by rw [hcols_len]; exact hidx_col _ ht₁),
        gget_pattern_grid digits cols rows spec (by rw [hrows_len]; exact hidx_row _ hu₂)
          (by rw [hcols_len]; exact hidx_col _ ht₂)] at hxy
      have hpat := digits_getD_inj hdig (pattern_lt hsize) (pattern_lt hsize) hxy
      rw [hpat_box u₁ t₁ hu₁ ht₁, hpat_box u₂ t₂ hu₂ ht₂] at hpat
      have hb₁ : spec.block_cols * inner.getD u₁ 0 + innerC.getD t₁ 0 < spec.size := by
        rw [hsz]
        exact mixed_lt (hs_lt _ hu₁) (ht_lt _ ht₁)
      have hb₂ : spec.block_cols * inner.getD u₂ 0 + innerC.getD t₂ 0 < spec.size := by
        rw [hsz]
        exact mixed_lt (hs_lt _ hu₂) (ht_lt _ ht₂)
      have heq := add_mod_inj_right hb₁ hb₂ hpat
      obtain ⟨hs_eq, ht_eq⟩ := mixed_radix_inj hbc (ht_lt _ ht₁) (ht_lt _ ht₂) heq
      have hinner_nd : inner.Nodup := hinner.nodup_iff.mpr (List.nodup_range _)
      have hinnerC_nd : innerC.Nodup := hinnerC.nodup_iff.mpr (List.nodup_range _)
      have hu_eq : u₁ = u₂ := by
        rw [List.getD_eq_getElem inner 0 (show u₁ < inner.length by omega),
          List.getD_eq_getElem inner 0 (show u₂ < inner.length by omega)] at hs_eq
        exact hinner_nd.getElem_inj_iff.mp hs_eq
      have ht_eq' : t₁ = t₂ := by
        rw [List.getD_eq_getElem innerC 0 (show t₁ < innerC.length by omega),
          List.getD_eq_getElem innerC 0 (show t₂ < innerC.length by omega)] at ht_eq
        exact hinnerC_nd.getElem_inj_iff.mp ht_eq
      rw [hu_eq, ht_eq']
    · rw [List.length_map, List.length_product, List.length_range, List.length_range,
        ← hsz]
    · intro v hv
      obtain ⟨ut, hut, rfl⟩ := List.mem_map.mp hv
      obtain ⟨u, t⟩ := ut
      obtain ⟨hu, ht⟩ := List.mem_product.mp hut
      rw [List.mem_range] at hu ht
      rw [gget_pattern_grid digits cols rows spec (by rw [hrows_len]; exact hidx_row _ hu)
          (by rw [hcols_len]; exact hidx_col _ ht)]
      exact digits_getD_mem hdig (pattern_lt hsize)

/-- C5: for every spec whose size splits into `block_rows × block_cols` blocks
(in particular the supported sizes 6, 9 and 16) and every random source, the
full-solution generator returns a grid in which every row, every column and
every block contains each digit `1..size` exactly once: the base pattern is a
valid solution and the digit relabeling and band/stack/row/column shuffles
preserve validity. -/
theorem generate_full_solution_valid (spec : SudokuSpec)
    (hsz : spec.size = spec.block_rows * spec.block_cols)
    (hbr : 0 < spec.block_rows) (hbc : 0 < spec.block_cols) (rng : Rng) :
    ValidSolution spec (generate_full_solution spec rng).1 := by
  simp only [generate_full_solution]
  cases h1 : shuffle (List.range' 1 spec.size) rng with
  | mk digits r1 =>
      cases h2 : shuffle (List.range (spec.size / spec.block_rows)) r1 with
      | mk row_bands r2 =>
          cases h3 : bandConcat spec.block_rows row_bands r2 with
          | mk rows r3 =>
              cases h4 : shuffle (List.range (spec.size / spec.block_cols)) r3 with
              | mk col_stacks r4 =>
                  cases h5 : bandConcat spec.block_cols col_stacks r4 with
                  | mk cols r5 =>
                      dsimp only
                      have hdig : digits.Perm (List.range' 1 spec.size) := by
                        have := shuffle_perm (List.range' 1 spec.size) rng
                        rw [h1] at this
                        exact this
                      have hbandsR : row_bands.Perm
                          (List.range (spec.size / spec.block_rows)) := by
                        have := shuffle_perm (List.range (spec.size / spec.block_rows)) r1
                        rw [h2] at this
                        exact this
                      have hbandsC : col_stacks.Perm
                          (List.range (spec.size / spec.block_cols)) := by
                        have := shuffle_perm (List.range (spec.size / spec.block_cols)) r3
                        rw [h4] at this
                        exact this
                      have hdvdr : spec.size / spec.block_rows * spec.block_rows =
                          spec.size := by
                        rw [hsz, Nat.mul_div_cancel_left _ hbr, Nat.mul_comm]
                      have hdvdc : spec.size / spec.block_cols * spec.block_cols =
                          spec.size := by
                        rw [hsz, Nat.mul_div_cancel _ hbc]
                      have hrows : rows.Perm (List.range spec.size) := by
                        have := bandConcat_perm_range r2 hbandsR hdvdr
                        rw [h3] at this
                        exact this
                      have hcols : cols.Perm (List.range spec.size) := by
                        have := bandConcat_perm_range r4 hbandsC hdvdc
                        rw [h5] at this
                        exact this
                      refine valid_of_parts spec hsz hbr hbc digits rows cols hdig hrows hcols
                        ?_ ?_
                      · intro B hB
                        have hBlen : B < row_bands.length := by
                          rw [hbandsR.length_eq, List.length_range]
                          exact hB
                        obtain ⟨inner, hinner, hval⟩ :=
                          bandConcat_getD spec.block_rows row_bands r2 B hBlen
                        rw [h3] at hval
                        exact ⟨row_bands.getD B 0, inner, hinner, hval⟩
                      · intro S hS
                        have hSlen : S < col_stacks.length := by
                          rw [hbandsC.length_eq, List.length_range]
                          exact hS
                        obtain ⟨innerC, hinnerC, hval⟩ :=
                          bandConcat_getD spec.block_cols col_stacks r4 S hSlen
                        rw [h5] at hval
                        exact ⟨col_stacks.getD S 0, innerC, hinnerC, hval⟩

/-- C5 witness: a concrete 6 × 6 generation (blocks 2 × 3) is a valid
solution. -/
theorem generate_full_solution_valid_witness :
    (6 : Nat) = 2 * 3 ∧
    ValidSolution ⟨6, 2, 3⟩ (generate_full_solution ⟨6, 2, 3⟩ ⟨fun n => n * n + 5, 0⟩).1 :=
  ⟨by decide,
    generate_full_solution_valid ⟨6, 2, 3⟩ (by decide) (by decide) (by decide)
      ⟨fun n => n * n + 5, 0⟩⟩

end SudokuBook
